import Mathlib

set_option maxHeartbeats 1000000

/-!
Verification development for the GS1 GPC importers
(`gpc_import_xml.py` and `gpc_import_json.py`).

The two scripts walk a Segment → Family → Class → Brick → AttributeType →
AttributeValue taxonomy and materialise it into six SQLite tables with
INSERT OR IGNORE semantics.  Below, the mutable SQLite state is embedded as
explicit lists of rows, the nested `for` loops of `process_gpc_xml` become
structurally recursive functions threading that state, and observable
side effects (connection opening, PRAGMA, table creation, insert attempts,
commit, rollback, close) are recorded as an event trace.
-/

namespace GPC

/-- Row of one of the five child tables (`gpc_families`, `gpc_classes`,
`gpc_bricks`, `gpc_attribute_types`, `gpc_attribute_values`): code column
(primary key), description column, parent-code column (foreign key). -/
structure Row where
  code : String
  descr : String
  parent : String
deriving Repr, DecidableEq

/-- Row of the root table (`gpc_segments` / `segments`): it has no
parent-code column. -/
structure SegRow where
  code : String
  descr : String
deriving Repr, DecidableEq

/-- Contents of the six taxonomy tables created by `setup_database`
(XML importer) resp. the four `CREATE TABLE IF NOT EXISTS` statements of
the JSON importer (which creates only the first four). -/
structure DB where
  segments : List SegRow
  families : List Row
  classes : List Row
  bricks : List Row
  attribute_types : List Row
  attribute_values : List Row
deriving Repr, DecidableEq

/-- The empty store: all six tables empty. -/
def emptyDB : DB := ⟨[], [], [], [], [], []⟩

/-- Whether `c` is a primary key of the segments table. -/
def segHasKey (db : DB) (c : String) : Bool := db.segments.any (fun r => r.code = c)

/-- Whether `c` is a primary key of the families table. -/
def famHasKey (db : DB) (c : String) : Bool := db.families.any (fun r => r.code = c)

/-- Whether `c` is a primary key of the classes table. -/
def clsHasKey (db : DB) (c : String) : Bool := db.classes.any (fun r => r.code = c)

/-- Whether `c` is a primary key of the bricks table. -/
def brkHasKey (db : DB) (c : String) : Bool := db.bricks.any (fun r => r.code = c)

/-- Whether `c` is a primary key of the attribute-types table. -/
def attHasKey (db : DB) (c : String) : Bool := db.attribute_types.any (fun r => r.code = c)

/-- Whether `c` is a primary key of the attribute-values table. -/
def atvHasKey (db : DB) (c : String) : Bool := db.attribute_values.any (fun r => r.code = c)

/-- Identifier of one of the six taxonomy tables / hierarchy levels. -/
inductive TableId
  | seg | fam | cls | brk | att | atv
deriving Repr, DecidableEq

/-- Observable side effects of a run, in program order: connection opening,
the `PRAGMA foreign_keys = ON` statement, the CREATE TABLE block, parse
failures, individual insert attempts, commit, rollback and close. -/
inductive Event
  | openConn
  | enableForeignKeys
  | createTables
  | parseFailed
  | wrongRoot
  | insertAttempt (table : TableId) (code : String)
  | commit
  | rollback
  | closeConn
deriving Repr, DecidableEq

/-- Outcome of one `INSERT OR IGNORE` statement as observed by the insert
helpers of `gpc_import_xml.py`: a new row written (`cursor.rowcount > 0`,
helper returns True), the insert ignored because the primary key already
exists (helper returns False), or an `sqlite3.Error` raised and caught
inside the helper (helper logs and returns False).  A foreign-key
violation surfaces as an `sqlite3.Error` — `OR IGNORE` does not cover
foreign-key failures. -/
inductive InsOutcome
  | inserted
  | ignored
  | errored
deriving Repr, DecidableEq

/-- Injected per-insert storage faults: the set of `(table, code)` insert
statements at which the storage layer raises an `sqlite3.Error`
(modelling the "storage error on any single insert" of the spec). -/
abbrev Fault := List (TableId × String)

/-- Whether the oracle injects a storage error at this insert statement. -/
def hasFault (f : Fault) (t : TableId) (c : String) : Bool := f.contains (t, c)

/-- Core of an `INSERT OR IGNORE` into a child table.  SQLite first
resolves the primary-key conflict (ignore), and only on an actual
insertion checks the foreign key (`fkOk` is the enforcement verdict
computed by the caller: trivially true when `PRAGMA foreign_keys` was
never enabled, otherwise membership of the parent code in the parent
table).  `isFault` injects a storage error. -/
def rowInsert (isFault : Bool) (fkOk : Bool) (rows : List Row) (r : Row) :
    List Row × InsOutcome :=
  if isFault then (rows, .errored)
  else if rows.any (fun x => x.code = r.code) then (rows, .ignored)
  else if !fkOk then (rows, .errored)
  else (rows ++ [r], .inserted)

/-- Core of an `INSERT OR IGNORE` into the segments table (no foreign
key). -/
def segRowInsert (isFault : Bool) (rows : List SegRow) (r : SegRow) :
    List SegRow × InsOutcome :=
  if isFault then (rows, .errored)
  else if rows.any (fun x => x.code = r.code) then (rows, .ignored)
  else (rows ++ [r], .inserted)

/-- Connection state of the XML importer: `setup_database` executes
`PRAGMA foreign_keys = ON;` right after connecting (line 96), so
enforcement is on for the whole run. -/
def xmlForeignKeysEnabled : Bool := true

/-- Connection state of the JSON importer: `import_gpc_to_sqlite` never
executes the pragma, and SQLite leaves foreign-key enforcement OFF by
default, so the declared FOREIGN KEY clauses are not enforced. -/
def jsonForeignKeysEnabled : Bool := false

/-- Translation of `insert_segment` (gpc_import_xml.py lines 158-176):
INSERT OR IGNORE into `gpc_segments`.  The `cursor` argument becomes the
explicit store; `fault` is the storage-error oracle. -/
def insert_segment (fault : Fault) (db : DB) (segment_code description : String) :
    DB × InsOutcome :=
  let p := segRowInsert (hasFault fault .seg segment_code) db.segments
    ⟨segment_code, description⟩
  ({ db with segments := p.1 }, p.2)

/-- Translation of `insert_family` (lines 178-197): INSERT OR IGNORE into
`gpc_families` with foreign key to `gpc_segments`; `fk` is the
connection's enforcement state. -/
def insert_family (fault : Fault) (fk : Bool) (db : DB)
    (family_code description segment_code : String) : DB × InsOutcome :=
  let p := rowInsert (hasFault fault .fam family_code)
    (!fk || segHasKey db segment_code) db.families
    ⟨family_code, description, segment_code⟩
  ({ db with families := p.1 }, p.2)

/-- Translation of `insert_class` (lines 199-218): INSERT OR IGNORE into
`gpc_classes` with foreign key to `gpc_families`. -/
def insert_class (fault : Fault) (fk : Bool) (db : DB)
    (class_code description family_code : String) : DB × InsOutcome :=
  let p := rowInsert (hasFault fault .cls class_code)
    (!fk || famHasKey db family_code) db.classes
    ⟨class_code, description, family_code⟩
  ({ db with classes := p.1 }, p.2)

/-- Translation of `insert_brick` (lines 220-239): INSERT OR IGNORE into
`gpc_bricks` with foreign key to `gpc_classes`. -/
def insert_brick (fault : Fault) (fk : Bool) (db : DB)
    (brick_code description class_code : String) : DB × InsOutcome :=
  let p := rowInsert (hasFault fault .brk brick_code)
    (!fk || clsHasKey db class_code) db.bricks
    ⟨brick_code, description, class_code⟩
  ({ db with bricks := p.1 }, p.2)

/-- Translation of `insert_attribute_type` (lines 241-260): INSERT OR
IGNORE into `gpc_attribute_types` with foreign key to `gpc_bricks`. -/
def insert_attribute_type (fault : Fault) (fk : Bool) (db : DB)
    (att_type_code att_type_text brick_code : String) : DB × InsOutcome :=
  let p := rowInsert (hasFault fault .att att_type_code)
    (!fk || brkHasKey db brick_code) db.attribute_types
    ⟨att_type_code, att_type_text, brick_code⟩
  ({ db with attribute_types := p.1 }, p.2)

/-- Translation of `insert_attribute_value` (lines 262-281): INSERT OR
IGNORE into `gpc_attribute_values` with foreign key to
`gpc_attribute_types`. -/
def insert_attribute_value (fault : Fault) (fk : Bool) (db : DB)
    (att_value_code att_value_text att_type_code : String) : DB × InsOutcome :=
  let p := rowInsert (hasFault fault .atv att_value_code)
    (!fk || attHasKey db att_type_code) db.attribute_values
    ⟨att_value_code, att_value_text, att_type_code⟩
  ({ db with attribute_values := p.1 }, p.2)

/-- Python falsiness of an XML attribute lookup `elem.get(name)`:
`not value` is true when the attribute is absent (None) or the empty
string.  This is the `if not code or not desc` test of every level. -/
def blank : Option String → Bool
  | none => true
  | some s => s.isEmpty

/-- Parsed `attValue` element: `code` and `text` attributes (absent
attributes are `none`). -/
structure AttValueElem where
  code : Option String
  text : Option String
deriving Repr, DecidableEq

/-- Parsed `attType` element with its `attValue` children. -/
structure AttTypeElem where
  code : Option String
  text : Option String
  values : List AttValueElem
deriving Repr, DecidableEq

/-- Parsed `brick` element with its `attType` children. -/
structure BrickElem where
  code : Option String
  text : Option String
  attTypes : List AttTypeElem
deriving Repr, DecidableEq

/-- Parsed `class` element with its `brick` children. -/
structure ClassElem where
  code : Option String
  text : Option String
  bricks : List BrickElem
deriving Repr, DecidableEq

/-- Parsed `family` element with its `class` children. -/
structure FamilyElem where
  code : Option String
  text : Option String
  classes : List ClassElem
deriving Repr, DecidableEq

/-- Parsed `segment` element with its `family` children. -/
structure SegmentElem where
  code : Option String
  text : Option String
  families : List FamilyElem
deriving Repr, DecidableEq

/-- Source document handed to the XML importer: either markup that
`ET.parse` rejects (`ParseError`, also covering a missing file), or a
parsed tree with its root tag and the list of `segment` elements that
`root.findall` ends up iterating. -/
inductive XmlSource
  | malformed
  | doc (rootTag : String) (segments : List SegmentElem)
deriving Repr, DecidableEq

/-- The `EXPECTED_ROOT_TAG` constant (gpc_import_xml.py line 46). -/
def EXPECTED_ROOT_TAG : String := "schema"

/-- Per-level counters.  `processed` and `inserted` mirror the entries of
the `counters` dict of `process_gpc_xml`; `skipped` counts the
"Skipping ... missing code or description" warnings; `dup` counts
INSERT OR IGNORE statements ignored on an existing key; `err` counts
insert statements that raised an `sqlite3.Error` (foreign-key violation
or injected storage fault). -/
structure LevelStats where
  processed : Nat
  inserted : Nat
  skipped : Nat
  dup : Nat
  err : Nat
deriving Repr, DecidableEq

/-- Componentwise sum of per-level counters. -/
def LevelStats.add (a b : LevelStats) : LevelStats :=
  ⟨a.processed + b.processed, a.inserted + b.inserted, a.skipped + b.skipped,
    a.dup + b.dup, a.err + b.err⟩

instance : Add LevelStats := ⟨LevelStats.add⟩

/-- All-zero per-level counters. -/
def LevelStats.zero : LevelStats := ⟨0, 0, 0, 0, 0⟩

/-- The twelve counters of `process_gpc_xml` (six levels), extended with
the instrumentation fields of `LevelStats`. -/
structure Stats where
  segs : LevelStats
  fams : LevelStats
  cls : LevelStats
  brs : LevelStats
  ats : LevelStats
  avs : LevelStats
deriving Repr, DecidableEq

/-- Componentwise sum of run counters. -/
def Stats.add (a b : Stats) : Stats :=
  ⟨a.segs + b.segs, a.fams + b.fams, a.cls + b.cls, a.brs + b.brs,
    a.ats + b.ats, a.avs + b.avs⟩

instance : Add Stats := ⟨Stats.add⟩

/-- All-zero run counters (the initial `counters` dict). -/
def Stats.zero : Stats :=
  ⟨.zero, .zero, .zero, .zero, .zero, .zero⟩

/-- Counters recording activity at the segment level only. -/
def Stats.inSegs (l : LevelStats) : Stats := { Stats.zero with segs := l }

/-- Counters recording activity at the family level only. -/
def Stats.inFams (l : LevelStats) : Stats := { Stats.zero with fams := l }

/-- Counters recording activity at the class level only. -/
def Stats.inCls (l : LevelStats) : Stats := { Stats.zero with cls := l }

/-- Counters recording activity at the brick level only. -/
def Stats.inBrs (l : LevelStats) : Stats := { Stats.zero with brs := l }

/-- Counters recording activity at the attribute-type level only. -/
def Stats.inAts (l : LevelStats) : Stats := { Stats.zero with ats := l }

/-- Counters recording activity at the attribute-value level only. -/
def Stats.inAvs (l : LevelStats) : Stats := { Stats.zero with avs := l }

/-- Counter contribution of a node skipped for a missing code or
description: counted as processed, a warning logged, no insert. -/
def skipUnit : LevelStats := ⟨1, 0, 1, 0, 0⟩

/-- Counter contribution of a visited well-formed node, by insert
outcome: processed always, inserted only when a row was written. -/
def outcomeStats : InsOutcome → LevelStats
  | .inserted => ⟨1, 1, 0, 0, 0⟩
  | .ignored => ⟨1, 0, 0, 1, 0⟩
  | .errored => ⟨1, 0, 0, 0, 1⟩

/-- Body of the attValue loop (gpc_import_xml.py lines 484-505): count
the element as processed, skip it on a blank code or text, otherwise
attempt the insert under the enclosing attribute-type code. -/
def procAttValue (fault : Fault) (att_type_code : String) (db : DB)
    (e : AttValueElem) : DB × Stats × List Event :=
  if blank e.code || blank e.text then (db, Stats.inAvs skipUnit, [])
  else
    let r := insert_attribute_value fault xmlForeignKeysEnabled db
      (e.code.getD "") (e.text.getD "") att_type_code
    (r.1, Stats.inAvs (outcomeStats r.2), [Event.insertAttempt .atv (e.code.getD "")])

/-- The attValue loop over `att_type_elem.findall(TAG_ATTRIB_VALUE)`. -/
def procAttValues (fault : Fault) (att_type_code : String) (db : DB) :
    List AttValueElem → DB × Stats × List Event
  | [] => (db, Stats.zero, [])
  | e :: es =>
    let r1 := procAttValue fault att_type_code db e
    let r2 := procAttValues fault att_type_code r1.1 es
    (r2.1, r1.2.1 + r2.2.1, r1.2.2 ++ r2.2.2)

/-- Body of the attType loop (lines 461-481): skip on blank code or text
(children then unreachable); otherwise attempt the insert and descend
into the attValue children regardless of the insert outcome, passing
this node's code as the parent code. -/
def procAttType (fault : Fault) (brick_code : String) (db : DB)
    (e : AttTypeElem) : DB × Stats × List Event :=
  if blank e.code || blank e.text then (db, Stats.inAts skipUnit, [])
  else
    let r := insert_attribute_type fault xmlForeignKeysEnabled db
      (e.code.getD "") (e.text.getD "") brick_code
    let r2 := procAttValues fault (e.code.getD "") r.1 e.values
    (r2.1, Stats.inAts (outcomeStats r.2) + r2.2.1,
      Event.insertAttempt .att (e.code.getD "") :: r2.2.2)

/-- The attType loop over `brick_elem.findall(TAG_ATTRIB_TYPE)`. -/
def procAttTypes (fault : Fault) (brick_code : String) (db : DB) :
    List AttTypeElem → DB × Stats × List Event
  | [] => (db, Stats.zero, [])
  | e :: es =>
    let r1 := procAttType fault brick_code db e
    let r2 := procAttTypes fault brick_code r1.1 es
    (r2.1, r1.2.1 + r2.2.1, r1.2.2 ++ r2.2.2)

/-- Body of the brick loop (lines 436-457). -/
def procBrick (fault : Fault) (class_code : String) (db : DB)
    (e : BrickElem) : DB × Stats × List Event :=
  if blank e.code || blank e.text then (db, Stats.inBrs skipUnit, [])
  else
    let r := insert_brick fault xmlForeignKeysEnabled db
      (e.code.getD "") (e.text.getD "") class_code
    let r2 := procAttTypes fault (e.code.getD "") r.1 e.attTypes
    (r2.1, Stats.inBrs (outcomeStats r.2) + r2.2.1,
      Event.insertAttempt .brk (e.code.getD "") :: r2.2.2)

/-- The brick loop over `class_elem.findall(TAG_BRICK)`. -/
def procBricks (fault : Fault) (class_code : String) (db : DB) :
    List BrickElem → DB × Stats × List Event
  | [] => (db, Stats.zero, [])
  | e :: es =>
    let r1 := procBrick fault class_code db e
    let r2 := procBricks fault class_code r1.1 es
    (r2.1, r1.2.1 + r2.2.1, r1.2.2 ++ r2.2.2)

/-- Body of the class loop (lines 414-432). -/
def procClass (fault : Fault) (family_code : String) (db : DB)
    (e : ClassElem) : DB × Stats × List Event :=
  if blank e.code || blank e.text then (db, Stats.inCls skipUnit, [])
  else
    let r := insert_class fault xmlForeignKeysEnabled db
      (e.code.getD "") (e.text.getD "") family_code
    let r2 := procBricks fault (e.code.getD "") r.1 e.bricks
    (r2.1, Stats.inCls (outcomeStats r.2) + r2.2.1,
      Event.insertAttempt .cls (e.code.getD "") :: r2.2.2)

/-- The class loop over `family_elem.findall(TAG_CLASS)`. -/
def procClasses (fault : Fault) (family_code : String) (db : DB) :
    List ClassElem → DB × Stats × List Event
  | [] => (db, Stats.zero, [])
  | e :: es =>
    let r1 := procClass fault family_code db e
    let r2 := procClasses fault family_code r1.1 es
    (r2.1, r1.2.1 + r2.2.1, r1.2.2 ++ r2.2.2)

/-- Body of the family loop (lines 388-410). -/
def procFamily (fault : Fault) (segment_code : String) (db : DB)
    (e : FamilyElem) : DB × Stats × List Event :=
  if blank e.code || blank e.text then (db, Stats.inFams skipUnit, [])
  else
    let r := insert_family fault xmlForeignKeysEnabled db
      (e.code.getD "") (e.text.getD "") segment_code
    let r2 := procClasses fault (e.code.getD "") r.1 e.classes
    (r2.1, Stats.inFams (outcomeStats r.2) + r2.2.1,
      Event.insertAttempt .fam (e.code.getD "") :: r2.2.2)

/-- The family loop over `segment_elem.findall(TAG_FAMILY)`. -/
def procFamilies (fault : Fault) (segment_code : String) (db : DB) :
    List FamilyElem → DB × Stats × List Event
  | [] => (db, Stats.zero, [])
  | e :: es =>
    let r1 := procFamily fault segment_code db e
    let r2 := procFamilies fault segment_code r1.1 es
    (r2.1, r1.2.1 + r2.2.1, r1.2.2 ++ r2.2.2)

/-- Body of the segment loop (lines 373-384). -/
def procSegment (fault : Fault) (db : DB) (e : SegmentElem) :
    DB × Stats × List Event :=
  if blank e.code || blank e.text then (db, Stats.inSegs skipUnit, [])
  else
    let r := insert_segment fault db (e.code.getD "") (e.text.getD "")
    let r2 := procFamilies fault (e.code.getD "") r.1 e.families
    (r2.1, Stats.inSegs (outcomeStats r.2) + r2.2.1,
      Event.insertAttempt .seg (e.code.getD "") :: r2.2.2)

/-- The segment loop over the segment elements of the document. -/
def procSegments (fault : Fault) (db : DB) :
    List SegmentElem → DB × Stats × List Event
  | [] => (db, Stats.zero, [])
  | e :: es =>
    let r1 := procSegment fault db e
    let r2 := procSegments fault r1.1 es
    (r2.1, r1.2.1 + r2.2.1, r1.2.2 ++ r2.2.2)

/-- Outcome of one `process_gpc_xml` run: the store content visible after
the run (committed rows; an aborted run leaves the store as it was), the
final counters (reported in the summary even for aborted runs), the
event trace, and whether the run reached its commit. -/
structure RunResult where
  db : DB
  stats : Stats
  events : List Event
  success : Bool
deriving Repr, DecidableEq

/-- Translation of `process_gpc_xml` (gpc_import_xml.py lines 287-562).
Step order as in the source: `setup_database` first (connect, PRAGMA
foreign_keys, CREATE TABLEs), then `ET.parse` plus the root-tag check
(a failure there returns from inside the `try`, so the `finally` only
closes the connection: nothing was inserted and nothing committed), then
the nested segment loop, then one `conn.commit()`.  `fatalAfter = some n`
injects the "unexpected error during traversal" of the outer `except`
after the first `n` segment iterations: the handler rolls the
transaction back, so the store keeps its initial content while the
partial counters are still reported. -/
def process_gpc_xml (fault : Fault) (src : XmlSource) (db : DB)
    (fatalAfter : Option Nat) : RunResult :=
  let setupEv := [Event.openConn, Event.enableForeignKeys, Event.createTables]
  match src with
  | .malformed => ⟨db, Stats.zero, setupEv ++ [Event.parseFailed, Event.closeConn], false⟩
  | .doc rootTag segments =>
    if rootTag ≠ EXPECTED_ROOT_TAG then
      ⟨db, Stats.zero, setupEv ++ [Event.wrongRoot, Event.closeConn], false⟩
    else
      match fatalAfter with
      | none =>
        let r := procSegments fault db segments
        ⟨r.1, r.2.1, setupEv ++ r.2.2 ++ [Event.commit, Event.closeConn], true⟩
      | some n =>
        let r := procSegments fault db (segments.take n)
        ⟨db, r.2.1, setupEv ++ r.2.2 ++ [Event.rollback, Event.closeConn], false⟩

/-- JSON record of the `segments` array: the two keys the importer reads
(`none` models an absent key, whose access raises `KeyError`). -/
structure JSegment where
  segmentCode : Option String
  segmentDescription : Option String
deriving Repr, DecidableEq

/-- JSON record of the `families` array. -/
structure JFamily where
  familyCode : Option String
  familyDescription : Option String
  segmentCode : Option String
deriving Repr, DecidableEq

/-- JSON record of the `classes` array. -/
structure JClass where
  classCode : Option String
  classDescription : Option String
  familyCode : Option String
deriving Repr, DecidableEq

/-- JSON record of the `bricks` array. -/
structure JBrick where
  brickCode : Option String
  brickDescription : Option String
  classCode : Option String
deriving Repr, DecidableEq

/-- Parsed top-level JSON document: each of the four keys is optional
(the importer tests `'segments' in data` and so on before iterating). -/
structure JsonDoc where
  segments : Option (List JSegment)
  families : Option (List JFamily)
  classes : Option (List JClass)
  bricks : Option (List JBrick)
deriving Repr, DecidableEq

/-- One iteration of the segments loop (gpc_import_json.py lines 57-62):
`segment['segmentCode']` then `segment['segmentDescription']` are read
(a missing key raises KeyError, returned as the error component), then
INSERT OR IGNORE into `segments`.  The JSON connection never enabled
foreign keys, so no foreign-key check applies. -/
def segStepJ (db : DB) (s : JSegment) : DB × List Event × Option String :=
  match s.segmentCode with
  | none => (db, [], some "segmentCode")
  | some c =>
    match s.segmentDescription with
    | none => (db, [], some "segmentDescription")
    | some d =>
      ((insert_segment [] db c d).1, [Event.insertAttempt .seg c], none)

/-- The segments loop: iteration stops at the first KeyError (it
propagates to the top-level handler). -/
def segLoopJ (db : DB) : List JSegment → DB × List Event × Option String
  | [] => (db, [], none)
  | s :: ss =>
    let r := segStepJ db s
    match r.2.2 with
    | some k => (r.1, r.2.1, some k)
    | none =>
      let rs := segLoopJ r.1 ss
      (rs.1, r.2.1 ++ rs.2.1, rs.2.2)

/-- One iteration of the families loop (lines 64-70).  The guard
`segment_filter is None or family['segmentCode'] == segment_filter`
short-circuits: with no filter, `segmentCode` is not read by the guard;
with a filter, a non-matching record is skipped without its other keys
ever being read.  On the insert path the execute tuple reads
`familyCode`, `familyDescription`, `segmentCode` in that order. -/
def famStepJ (filt : Option String) (db : DB) (f : JFamily) :
    DB × List Event × Option String :=
  match filt with
  | none =>
    match f.familyCode with
    | none => (db, [], some "familyCode")
    | some fc =>
      match f.familyDescription with
      | none => (db, [], some "familyDescription")
      | some fd =>
        match f.segmentCode with
        | none => (db, [], some "segmentCode")
        | some sc =>
          ((insert_family [] jsonForeignKeysEnabled db fc fd sc).1,
            [Event.insertAttempt .fam fc], none)
  | some s =>
    match f.segmentCode with
    | none => (db, [], some "segmentCode")
    | some sc =>
      if sc = s then
        match f.familyCode with
        | none => (db, [], some "familyCode")
        | some fc =>
          match f.familyDescription with
          | none => (db, [], some "familyDescription")
          | some fd =>
            ((insert_family [] jsonForeignKeysEnabled db fc fd sc).1,
              [Event.insertAttempt .fam fc], none)
      else (db, [], none)

/-- The families loop, stopping at the first KeyError. -/
def famLoopJ (filt : Option String) (db : DB) :
    List JFamily → DB × List Event × Option String
  | [] => (db, [], none)
  | f :: fs =>
    let r := famStepJ filt db f
    match r.2.2 with
    | some k => (r.1, r.2.1, some k)
    | none =>
      let rs := famLoopJ filt r.1 fs
      (rs.1, r.2.1 ++ rs.2.1, rs.2.2)

/-- One iteration of the classes loop (lines 72-82): read
`class_data['familyCode']`, look the family up in the `families` table
(`fetchone`); a missing family silently skips the record; otherwise the
fetched family's `segmentCode` is compared against the filter, and on
the insert path `classCode`, `classDescription`, `familyCode` are
read. -/
def classStepJ (filt : Option String) (db : DB) (c : JClass) :
    DB × List Event × Option String :=
  match c.familyCode with
  | none => (db, [], some "familyCode")
  | some fc =>
    match db.families.find? (fun r => r.code = fc) with
    | none => (db, [], none)
    | some frow =>
      if filt = none ∨ filt = some frow.parent then
        match c.classCode with
        | none => (db, [], some "classCode")
        | some cc =>
          match c.classDescription with
          | none => (db, [], some "classDescription")
          | some cd =>
            ((insert_class [] jsonForeignKeysEnabled db cc cd fc).1,
              [Event.insertAttempt .cls cc], none)
      else (db, [], none)

/-- The classes loop, stopping at the first KeyError. -/
def classLoopJ (filt : Option String) (db : DB) :
    List JClass → DB × List Event × Option String
  | [] => (db, [], none)
  | c :: cs =>
    let r := classStepJ filt db c
    match r.2.2 with
    | some k => (r.1, r.2.1, some k)
    | none =>
      let rs := classLoopJ filt r.1 cs
      (rs.1, r.2.1 ++ rs.2.1, rs.2.2)

/-- One iteration of the bricks loop (lines 84-97): read
`brick['classCode']`, look the class up in `classes`, then that class's
family in `families`; a failed lookup silently skips the record;
otherwise the family's `segmentCode` is compared against the filter and
`brickCode`, `brickDescription`, `classCode` are read on the insert
path. -/
def brickStepJ (filt : Option String) (db : DB) (b : JBrick) :
    DB × List Event × Option String :=
  match b.classCode with
  | none => (db, [], some "classCode")
  | some cc =>
    match db.classes.find? (fun r => r.code = cc) with
    | none => (db, [], none)
    | some crow =>
      match db.families.find? (fun r => r.code = crow.parent) with
      | none => (db, [], none)
      | some frow =>
        if filt = none ∨ filt = some frow.parent then
          match b.brickCode with
          | none => (db, [], some "brickCode")
          | some bc =>
            match b.brickDescription with
            | none => (db, [], some "brickDescription")
            | some bd =>
              ((insert_brick [] jsonForeignKeysEnabled db bc bd cc).1,
                [Event.insertAttempt .brk bc], none)
        else (db, [], none)

/-- The bricks loop, stopping at the first KeyError. -/
def brickLoopJ (filt : Option String) (db : DB) :
    List JBrick → DB × List Event × Option String
  | [] => (db, [], none)
  | b :: bs =>
    let r := brickStepJ filt db b
    match r.2.2 with
    | some k => (r.1, r.2.1, some k)
    | none =>
      let rs := brickLoopJ filt r.1 bs
      (rs.1, r.2.1 ++ rs.2.1, rs.2.2)

/-- Outcome of one JSON import run: the store content visible after the
run (`conn.commit()` is only reached on the success path, so on the
KeyError path the staged inserts are never durably written and the
store keeps its initial content), whether the run committed, whether
the connection was closed (`conn.close()` is also only on the success
path — there is no `finally`), the KeyError caught by the top-level
handler if any, and the event trace. -/
structure JsonResult where
  db : DB
  committed : Bool
  closed : Bool
  keyError : Option String
  events : List Event
deriving Repr, DecidableEq

/-- The `if 'segments' in data:` block (gpc_import_json.py lines 57-62):
the section is a no-op when the key is absent. -/
def segSectionJ (db : DB) (o : Option (List JSegment)) :
    DB × List Event × Option String :=
  match o with
  | none => (db, [], none)
  | some l => segLoopJ db l

/-- The `if 'families' in data:` block (lines 64-70). -/
def famSectionJ (filt : Option String) (db : DB) (o : Option (List JFamily)) :
    DB × List Event × Option String :=
  match o with
  | none => (db, [], none)
  | some l => famLoopJ filt db l

/-- The `if 'classes' in data:` block (lines 72-82). -/
def classSectionJ (filt : Option String) (db : DB) (o : Option (List JClass)) :
    DB × List Event × Option String :=
  match o with
  | none => (db, [], none)
  | some l => classLoopJ filt db l

/-- The `if 'bricks' in data:` block (lines 84-97). -/
def brickSectionJ (filt : Option String) (db : DB) (o : Option (List JBrick)) :
    DB × List Event × Option String :=
  match o with
  | none => (db, [], none)
  | some l => brickLoopJ filt db l

/-- Sequencing of two store-processing stages in the JSON importer: a
KeyError raised by the first stage propagates (the second stage never
runs and contributes no events), otherwise the second stage runs on the
store left by the first and the traces concatenate. -/
def seqJ (a : DB × List Event × Option String)
    (f : DB → DB × List Event × Option String) :
    DB × List Event × Option String :=
  match a.2.2 with
  | some k => (a.1, a.2.1, some k)
  | none =>
    let r := f a.1
    (r.1, a.2.1 ++ r.2.1, r.2.2)

/-- The four section loops of the JSON importer run in source order
(segments, families, classes, bricks), with KeyError short-circuiting. -/
def runSectionsJ (filt : Option String) (db : DB) (doc : JsonDoc) :
    DB × List Event × Option String :=
  seqJ (seqJ (seqJ (segSectionJ db doc.segments)
    (fun d => famSectionJ filt d doc.families))
    (fun d => classSectionJ filt d doc.classes))
    (fun d => brickSectionJ filt d doc.bricks)

/-- Translation of `import_gpc_to_sqlite` (gpc_import_json.py lines
4-113): connect, create the four tables (no `PRAGMA foreign_keys`),
run the four section loops in order, then commit and close.  A KeyError
anywhere propagates to the `except KeyError` handler at the top level:
every record after it, at every level, goes unprocessed, and neither
`conn.commit()` nor `conn.close()` is reached, so the store keeps its
initial content. -/
def import_gpc_to_sqlite (doc : JsonDoc) (db : DB)
    (segment_filter : Option String) : JsonResult :=
  match (runSectionsJ segment_filter db doc).2.2 with
  | some k =>
    ⟨db, false, false, some k,
      [Event.openConn, Event.createTables] ++ (runSectionsJ segment_filter db doc).2.1⟩
  | none =>
    ⟨(runSectionsJ segment_filter db doc).1, true, true, none,
      [Event.openConn, Event.createTables] ++ (runSectionsJ segment_filter db doc).2.1 ++
        [Event.commit, Event.closeConn]⟩

/-- Projection of a level's counters onto the pair the spec's P5 talks
about besides inserts: processed and skipped. -/
structure PS where
  processed : Nat
  skipped : Nat
deriving Repr, DecidableEq

/-- Componentwise sum of processed/skipped pairs. -/
def PS.add (a b : PS) : PS := ⟨a.processed + b.processed, a.skipped + b.skipped⟩

instance : Add PS := ⟨PS.add⟩

/-- Zero processed/skipped pair. -/
def PS.zero : PS := ⟨0, 0⟩

/-- Processed/skipped pairs for all six levels. -/
structure StatsPS where
  segs : PS
  fams : PS
  cls : PS
  brs : PS
  ats : PS
  avs : PS
deriving Repr, DecidableEq

/-- Componentwise sum. -/
def StatsPS.add (a b : StatsPS) : StatsPS :=
  ⟨a.segs + b.segs, a.fams + b.fams, a.cls + b.cls, a.brs + b.brs,
    a.ats + b.ats, a.avs + b.avs⟩

instance : Add StatsPS := ⟨StatsPS.add⟩

/-- All-zero pairs. -/
def StatsPS.zero : StatsPS := ⟨.zero, .zero, .zero, .zero, .zero, .zero⟩

/-- Pairs concentrated at the segment level. -/
def StatsPS.inSegs (p : PS) : StatsPS := { StatsPS.zero with segs := p }

/-- Pairs concentrated at the family level. -/
def StatsPS.inFams (p : PS) : StatsPS := { StatsPS.zero with fams := p }

/-- Pairs concentrated at the class level. -/
def StatsPS.inCls (p : PS) : StatsPS := { StatsPS.zero with cls := p }

/-- Pairs concentrated at the brick level. -/
def StatsPS.inBrs (p : PS) : StatsPS := { StatsPS.zero with brs := p }

/-- Pairs concentrated at the attribute-type level. -/
def StatsPS.inAts (p : PS) : StatsPS := { StatsPS.zero with ats := p }

/-- Pairs concentrated at the attribute-value level. -/
def StatsPS.inAvs (p : PS) : StatsPS := { StatsPS.zero with avs := p }

/-- Processed/skipped projection of one level's counters. -/
def LevelStats.ps (l : LevelStats) : PS := ⟨l.processed, l.skipped⟩

/-- Processed/skipped projection of a full counter set. -/
def Stats.ps (s : Stats) : StatsPS :=
  ⟨s.segs.ps, s.fams.ps, s.cls.ps, s.brs.ps, s.ats.ps, s.avs.ps⟩

/-- Statement of P5 at one level: every processed node is accounted for
exactly once as inserted, as an ignored duplicate, or as skipped for a
missing field (so inserted = processed − duplicates − skipped). -/
def LevelStats.Balanced (l : LevelStats) : Prop :=
  l.inserted + l.dup + l.skipped = l.processed

/-- P5's accounting identity at all six levels. -/
def Stats.Balanced (s : Stats) : Prop :=
  s.segs.Balanced ∧ s.fams.Balanced ∧ s.cls.Balanced ∧ s.brs.Balanced ∧
    s.ats.Balanced ∧ s.avs.Balanced

/-- All six "inserted" counters are zero (the expected summary of a
repeat run). -/
def Stats.InsertedZero (s : Stats) : Prop :=
  s.segs.inserted = 0 ∧ s.fams.inserted = 0 ∧ s.cls.inserted = 0 ∧
    s.brs.inserted = 0 ∧ s.ats.inserted = 0 ∧ s.avs.inserted = 0

/-- Store growth: every row of every table of `a` is still a row of the
same table of `b` (all store writes are INSERT OR IGNORE appends). -/
def DBLe (a b : DB) : Prop :=
  (∀ r ∈ a.segments, r ∈ b.segments) ∧ (∀ r ∈ a.families, r ∈ b.families) ∧
  (∀ r ∈ a.classes, r ∈ b.classes) ∧ (∀ r ∈ a.bricks, r ∈ b.bricks) ∧
  (∀ r ∈ a.attribute_types, r ∈ b.attribute_types) ∧
  (∀ r ∈ a.attribute_values, r ∈ b.attribute_values)

/-- Referential integrity of the store (the spec's P2): every child
row's parent code is a primary key of the parent table. -/
def RefInt (db : DB) : Prop :=
  (∀ r ∈ db.families, segHasKey db r.parent = true) ∧
  (∀ r ∈ db.classes, famHasKey db r.parent = true) ∧
  (∀ r ∈ db.bricks, clsHasKey db r.parent = true) ∧
  (∀ r ∈ db.attribute_types, brkHasKey db r.parent = true) ∧
  (∀ r ∈ db.attribute_values, attHasKey db r.parent = true)

/-- Saturation at the attValue level: every well-formed element's code is
already a key of its table. -/
def avSat (db : DB) (l : List AttValueElem) : Prop :=
  ∀ e ∈ l, (blank e.code || blank e.text) = true ∨
    atvHasKey db (e.code.getD "") = true

/-- Saturation at the attType level, including the subtree. -/
def atSat (db : DB) (l : List AttTypeElem) : Prop :=
  ∀ e ∈ l, (blank e.code || blank e.text) = true ∨
    (attHasKey db (e.code.getD "") = true ∧ avSat db e.values)

/-- Saturation at the brick level, including the subtree. -/
def brSat (db : DB) (l : List BrickElem) : Prop :=
  ∀ e ∈ l, (blank e.code || blank e.text) = true ∨
    (brkHasKey db (e.code.getD "") = true ∧ atSat db e.attTypes)

/-- Saturation at the class level, including the subtree. -/
def clSat (db : DB) (l : List ClassElem) : Prop :=
  ∀ e ∈ l, (blank e.code || blank e.text) = true ∨
    (clsHasKey db (e.code.getD "") = true ∧ brSat db e.bricks)

/-- Saturation at the family level, including the subtree. -/
def fmSat (db : DB) (l : List FamilyElem) : Prop :=
  ∀ e ∈ l, (blank e.code || blank e.text) = true ∨
    (famHasKey db (e.code.getD "") = true ∧ clSat db e.classes)

/-- Saturation at the segment level: every well-formed node of the whole
document already has its row, level by level. -/
def sgSat (db : DB) (l : List SegmentElem) : Prop :=
  ∀ e ∈ l, (blank e.code || blank e.text) = true ∨
    (segHasKey db (e.code.getD "") = true ∧ fmSat db e.families)

/-- Modelled from the spec: expected counter pair of one attValue node
("syntactically present" and, when a field is missing, "skipped"). -/
def specCountAV (e : AttValueElem) : StatsPS :=
  if blank e.code || blank e.text then StatsPS.inAvs ⟨1, 1⟩ else StatsPS.inAvs ⟨1, 0⟩

/-- Expected counter pairs of a list of attValue nodes. -/
def specCountAVs : List AttValueElem → StatsPS
  | [] => StatsPS.zero
  | e :: es => specCountAV e + specCountAVs es

/-- Expected counter pairs of one attType subtree: a skipped node's
children are out of scope (never visited). -/
def specCountAT (e : AttTypeElem) : StatsPS :=
  if blank e.code || blank e.text then StatsPS.inAts ⟨1, 1⟩
  else StatsPS.inAts ⟨1, 0⟩ + specCountAVs e.values

/-- Expected counter pairs of a list of attType subtrees. -/
def specCountATs : List AttTypeElem → StatsPS
  | [] => StatsPS.zero
  | e :: es => specCountAT e + specCountATs es

/-- Expected counter pairs of one brick subtree. -/
def specCountBR (e : BrickElem) : StatsPS :=
  if blank e.code || blank e.text then StatsPS.inBrs ⟨1, 1⟩
  else StatsPS.inBrs ⟨1, 0⟩ + specCountATs e.attTypes

/-- Expected counter pairs of a list of brick subtrees. -/
def specCountBRs : List BrickElem → StatsPS
  | [] => StatsPS.zero
  | e :: es => specCountBR e + specCountBRs es

/-- Expected counter pairs of one class subtree. -/
def specCountCL (e : ClassElem) : StatsPS :=
  if blank e.code || blank e.text then StatsPS.inCls ⟨1, 1⟩
  else StatsPS.inCls ⟨1, 0⟩ + specCountBRs e.bricks

/-- Expected counter pairs of a list of class subtrees. -/
def specCountCLs : List ClassElem → StatsPS
  | [] => StatsPS.zero
  | e :: es => specCountCL e + specCountCLs es

/-- Expected counter pairs of one family subtree. -/
def specCountFM (e : FamilyElem) : StatsPS :=
  if blank e.code || blank e.text then StatsPS.inFams ⟨1, 1⟩
  else StatsPS.inFams ⟨1, 0⟩ + specCountCLs e.classes

/-- Expected counter pairs of a list of family subtrees. -/
def specCountFMs : List FamilyElem → StatsPS
  | [] => StatsPS.zero
  | e :: es => specCountFM e + specCountFMs es

/-- Expected counter pairs of one segment subtree. -/
def specCountSG (e : SegmentElem) : StatsPS :=
  if blank e.code || blank e.text then StatsPS.inSegs ⟨1, 1⟩
  else StatsPS.inSegs ⟨1, 0⟩ + specCountFMs e.families

/-- Expected counter pairs of a list of segment subtrees. -/
def specCountSGs : List SegmentElem → StatsPS
  | [] => StatsPS.zero
  | e :: es => specCountSG e + specCountSGs es

/-- Expected counter pairs of a whole source document: an unparseable
document or a wrong root tag puts every node out of scope. -/
def specCounts : XmlSource → StatsPS
  | .malformed => StatsPS.zero
  | .doc rootTag segments =>
    if rootTag = EXPECTED_ROOT_TAG then specCountSGs segments else StatsPS.zero

/-- KeyError raised (if any) by one iteration of the JSON families loop,
computed from the record and the filter alone: the guard reads
`segmentCode` only when a filter is supplied, and the remaining keys
are only read for records that pass the guard. -/
def famErr (filt : Option String) (f : JFamily) : Option String :=
  match filt with
  | none =>
    match f.familyCode with
    | none => some "familyCode"
    | some _ =>
      match f.familyDescription with
      | none => some "familyDescription"
      | some _ =>
        match f.segmentCode with
        | none => some "segmentCode"
        | some _ => none
  | some s =>
    match f.segmentCode with
    | none => some "segmentCode"
    | some sc =>
      if sc = s then
        match f.familyCode with
        | none => some "familyCode"
        | some _ =>
          match f.familyDescription with
          | none => some "familyDescription"
          | some _ => none
      else none

/-- Whether an event is an insert attempt against the store. -/
def isInsertEvent : Event → Bool
  | .insertAttempt _ _ => true
  | _ => false

/-- Scanning the trace left to right, foreign-key enforcement is enabled
before the first insert attempt (vacuously true when no insert
occurs). -/
def fkFirst : List Event → Bool
  | [] => true
  | Event.enableForeignKeys :: _ => true
  | Event.insertAttempt _ _ :: _ => false
  | _ :: rest => fkFirst rest

/-- Insert-attempt trace of the attValue loop, read off the document
alone (an attempt is made for every well-formed node, whatever its
outcome). -/
def evAV (e : AttValueElem) : List Event :=
  if blank e.code || blank e.text then [] else [Event.insertAttempt .atv (e.code.getD "")]

/-- Trace of a list of attValue nodes. -/
def evAVs : List AttValueElem → List Event
  | [] => []
  | e :: es => evAV e ++ evAVs es

/-- Trace of one attType subtree. -/
def evAT (e : AttTypeElem) : List Event :=
  if blank e.code || blank e.text then []
  else Event.insertAttempt .att (e.code.getD "") :: evAVs e.values

/-- Trace of a list of attType subtrees. -/
def evATs : List AttTypeElem → List Event
  | [] => []
  | e :: es => evAT e ++ evATs es

/-- Trace of one brick subtree. -/
def evBR (e : BrickElem) : List Event :=
  if blank e.code || blank e.text then []
  else Event.insertAttempt .brk (e.code.getD "") :: evATs e.attTypes

/-- Trace of a list of brick subtrees. -/
def evBRs : List BrickElem → List Event
  | [] => []
  | e :: es => evBR e ++ evBRs es

/-- Trace of one class subtree. -/
def evCL (e : ClassElem) : List Event :=
  if blank e.code || blank e.text then []
  else Event.insertAttempt .cls (e.code.getD "") :: evBRs e.bricks

/-- Trace of a list of class subtrees. -/
def evCLs : List ClassElem → List Event
  | [] => []
  | e :: es => evCL e ++ evCLs es

/-- Trace of one family subtree. -/
def evFM (e : FamilyElem) : List Event :=
  if blank e.code || blank e.text then []
  else Event.insertAttempt .fam (e.code.getD "") :: evCLs e.classes

/-- Trace of a list of family subtrees. -/
def evFMs : List FamilyElem → List Event
  | [] => []
  | e :: es => evFM e ++ evFMs es

/-- Trace of one segment subtree. -/
def evSG (e : SegmentElem) : List Event :=
  if blank e.code || blank e.text then []
  else Event.insertAttempt .seg (e.code.getD "") :: evFMs e.families

/-- Trace of a list of segment subtrees. -/
def evSGs : List SegmentElem → List Event
  | [] => []
  | e :: es => evSG e ++ evSGs es

theorem lstats_zero_add (a : LevelStats) : LevelStats.zero + a = a := by
  cases a
  show LevelStats.add _ _ = _
  simp [LevelStats.add, LevelStats.zero]

theorem lstats_add_zero (a : LevelStats) : a + LevelStats.zero = a := by
  cases a
  show LevelStats.add _ _ = _
  simp [LevelStats.add, LevelStats.zero]

theorem lstats_add_assoc (a b c : LevelStats) : a + b + c = a + (b + c) := by
  show LevelStats.add (LevelStats.add a b) c = LevelStats.add a (LevelStats.add b c)
  simp [LevelStats.add, Nat.add_assoc]

theorem lstats_add_comm (a b : LevelStats) : a + b = b + a := by
  show LevelStats.add a b = LevelStats.add b a
  simp [LevelStats.add, Nat.add_comm]

theorem stats_zero_add (a : Stats) : Stats.zero + a = a := by
  cases a
  show Stats.add _ _ = _
  simp [Stats.add, Stats.zero, lstats_zero_add]

theorem stats_add_zero (a : Stats) : a + Stats.zero = a := by
  cases a
  show Stats.add _ _ = _
  simp [Stats.add, Stats.zero, lstats_add_zero]

theorem stats_add_assoc (a b c : Stats) : a + b + c = a + (b + c) := by
  show Stats.add (Stats.add a b) c = Stats.add a (Stats.add b c)
  simp [Stats.add, lstats_add_assoc]

theorem stats_add_comm (a b : Stats) : a + b = b + a := by
  show Stats.add a b = Stats.add b a
  simp [Stats.add, lstats_add_comm]

theorem ps_zero_add (a : PS) : PS.zero + a = a := by
  cases a
  show PS.add _ _ = _
  simp [PS.add, PS.zero]

theorem ps_add_zero (a : PS) : a + PS.zero = a := by
  cases a
  show PS.add _ _ = _
  simp [PS.add, PS.zero]

theorem statsps_zero_add (a : StatsPS) : StatsPS.zero + a = a := by
  cases a
  show StatsPS.add _ _ = _
  simp [StatsPS.add, StatsPS.zero, ps_zero_add]

theorem statsps_add_zero (a : StatsPS) : a + StatsPS.zero = a := by
  cases a
  show StatsPS.add _ _ = _
  simp [StatsPS.add, StatsPS.zero, ps_add_zero]

theorem lstats_ps_add (a b : LevelStats) : (a + b).ps = a.ps + b.ps := by
  show (LevelStats.add a b).ps = PS.add a.ps b.ps
  simp [LevelStats.add, LevelStats.ps, PS.add]

theorem stats_ps_add (a b : Stats) : (a + b).ps = a.ps + b.ps := by
  show (Stats.add a b).ps = StatsPS.add a.ps b.ps
  simp [Stats.add, Stats.ps, StatsPS.add, lstats_ps_add]

theorem Stats.ps_zero : Stats.zero.ps = StatsPS.zero := rfl

theorem Stats.ps_inSegs (l : LevelStats) : (Stats.inSegs l).ps = StatsPS.inSegs l.ps := rfl

theorem Stats.ps_inFams (l : LevelStats) : (Stats.inFams l).ps = StatsPS.inFams l.ps := rfl

theorem Stats.ps_inCls (l : LevelStats) : (Stats.inCls l).ps = StatsPS.inCls l.ps := rfl

theorem Stats.ps_inBrs (l : LevelStats) : (Stats.inBrs l).ps = StatsPS.inBrs l.ps := rfl

theorem Stats.ps_inAts (l : LevelStats) : (Stats.inAts l).ps = StatsPS.inAts l.ps := rfl

theorem Stats.ps_inAvs (l : LevelStats) : (Stats.inAvs l).ps = StatsPS.inAvs l.ps := rfl

theorem outcomeStats_ps (o : InsOutcome) : (outcomeStats o).ps = ⟨1, 0⟩ := by
  cases o <;> rfl

theorem skipUnit_ps : skipUnit.ps = ⟨1, 1⟩ := rfl

theorem balanced_add_level {a b : LevelStats} (ha : a.Balanced)
    (hb : b.Balanced) : (a + b).Balanced := by
  show (LevelStats.add a b).Balanced
  unfold LevelStats.Balanced at *
  simp [LevelStats.add]
  omega

theorem balanced_add_stats {a b : Stats} (ha : a.Balanced) (hb : b.Balanced) :
    (a + b).Balanced :=
  ⟨balanced_add_level ha.1 hb.1, balanced_add_level ha.2.1 hb.2.1,
    balanced_add_level ha.2.2.1 hb.2.2.1, balanced_add_level ha.2.2.2.1 hb.2.2.2.1,
    balanced_add_level ha.2.2.2.2.1 hb.2.2.2.2.1,
    balanced_add_level ha.2.2.2.2.2 hb.2.2.2.2.2⟩

theorem balanced_zero_stats : Stats.zero.Balanced := by
  unfold Stats.Balanced Stats.zero LevelStats.Balanced LevelStats.zero
  simp

theorem LevelStats.zero_balanced : LevelStats.zero.Balanced := by
  unfold LevelStats.Balanced LevelStats.zero
  simp

theorem balanced_inSegs {l : LevelStats} (h : l.Balanced) :
    (Stats.inSegs l).Balanced :=
  ⟨h, LevelStats.zero_balanced, LevelStats.zero_balanced, LevelStats.zero_balanced,
    LevelStats.zero_balanced, LevelStats.zero_balanced⟩

theorem balanced_inFams {l : LevelStats} (h : l.Balanced) :
    (Stats.inFams l).Balanced :=
  ⟨LevelStats.zero_balanced, h, LevelStats.zero_balanced, LevelStats.zero_balanced,
    LevelStats.zero_balanced, LevelStats.zero_balanced⟩

theorem balanced_inCls {l : LevelStats} (h : l.Balanced) :
    (Stats.inCls l).Balanced :=
  ⟨LevelStats.zero_balanced, LevelStats.zero_balanced, h, LevelStats.zero_balanced,
    LevelStats.zero_balanced, LevelStats.zero_balanced⟩

theorem balanced_inBrs {l : LevelStats} (h : l.Balanced) :
    (Stats.inBrs l).Balanced :=
  ⟨LevelStats.zero_balanced, LevelStats.zero_balanced, LevelStats.zero_balanced, h,
    LevelStats.zero_balanced, LevelStats.zero_balanced⟩

theorem balanced_inAts {l : LevelStats} (h : l.Balanced) :
    (Stats.inAts l).Balanced :=
  ⟨LevelStats.zero_balanced, LevelStats.zero_balanced, LevelStats.zero_balanced,
    LevelStats.zero_balanced, h, LevelStats.zero_balanced⟩

theorem balanced_inAvs {l : LevelStats} (h : l.Balanced) :
    (Stats.inAvs l).Balanced :=
  ⟨LevelStats.zero_balanced, LevelStats.zero_balanced, LevelStats.zero_balanced,
    LevelStats.zero_balanced, LevelStats.zero_balanced, h⟩

theorem skipUnit_balanced : skipUnit.Balanced := by
  unfold LevelStats.Balanced skipUnit
  simp

theorem LevelStats.inserted_add (a b : LevelStats) :
    (a + b).inserted = a.inserted + b.inserted := rfl

theorem inserted_zero_add {a b : Stats} (ha : a.InsertedZero)
    (hb : b.InsertedZero) : (a + b).InsertedZero := by
  show (Stats.add a b).InsertedZero
  unfold Stats.InsertedZero at *
  simp [Stats.add, LevelStats.inserted_add]
  omega

theorem inserted_zero_zero : Stats.zero.InsertedZero := by
  unfold Stats.InsertedZero Stats.zero LevelStats.zero
  simp

theorem inserted_zero_inSegs {l : LevelStats} (h : l.inserted = 0) :
    (Stats.inSegs l).InsertedZero := by
  unfold Stats.InsertedZero Stats.inSegs Stats.zero LevelStats.zero
  simp [h]

theorem inserted_zero_inFams {l : LevelStats} (h : l.inserted = 0) :
    (Stats.inFams l).InsertedZero := by
  unfold Stats.InsertedZero Stats.inFams Stats.zero LevelStats.zero
  simp [h]

theorem inserted_zero_inCls {l : LevelStats} (h : l.inserted = 0) :
    (Stats.inCls l).InsertedZero := by
  unfold Stats.InsertedZero Stats.inCls Stats.zero LevelStats.zero
  simp [h]

theorem inserted_zero_inBrs {l : LevelStats} (h : l.inserted = 0) :
    (Stats.inBrs l).InsertedZero := by
  unfold Stats.InsertedZero Stats.inBrs Stats.zero LevelStats.zero
  simp [h]

theorem inserted_zero_inAts {l : LevelStats} (h : l.inserted = 0) :
    (Stats.inAts l).InsertedZero := by
  unfold Stats.InsertedZero Stats.inAts Stats.zero LevelStats.zero
  simp [h]

theorem inserted_zero_inAvs {l : LevelStats} (h : l.inserted = 0) :
    (Stats.inAvs l).InsertedZero := by
  unfold Stats.InsertedZero Stats.inAvs Stats.zero LevelStats.zero
  simp [h]

theorem skipUnit_inserted : skipUnit.inserted = 0 := rfl

theorem hasFault_nil (t : TableId) (c : String) : hasFault [] t c = false := rfl

theorem rowInsert_mem {rows : List Row} {r x : Row} (f k : Bool) (h : x ∈ rows) :
    x ∈ (rowInsert f k rows r).1 := by
  unfold rowInsert
  split
  · exact h
  · split
    · exact h
    · split
      · exact h
      · exact List.mem_append_left _ h

theorem rowInsert_any {rows : List Row} {c : String} (f k : Bool) (r : Row)
    (h : rows.any (fun x => x.code = c) = true) :
    ((rowInsert f k rows r).1).any (fun x => x.code = c) = true := by
  simp only [List.any_eq_true] at h ⊢
  obtain ⟨x, hx, he⟩ := h
  exact ⟨x, rowInsert_mem f k hx, he⟩

theorem rowInsert_self {rows : List Row} {r : Row} :
    ((rowInsert false true rows r).1).any (fun x => x.code = r.code) = true := by
  unfold rowInsert
  simp only [Bool.false_eq_true, if_false, Bool.not_true]
  split
  · assumption
  · simp

theorem rowInsert_outcome {rows : List Row} {r : Row} :
    (rowInsert false true rows r).2 = .inserted ∨
      (rowInsert false true rows r).2 = .ignored := by
  unfold rowInsert
  simp only [Bool.false_eq_true, if_false, Bool.not_true]
  split
  · right; rfl
  · left; rfl

theorem rowInsert_dup {rows : List Row} {r : Row} (k : Bool)
    (h : rows.any (fun x => x.code = r.code) = true) :
    rowInsert false k rows r = (rows, .ignored) := by
  unfold rowInsert
  simp [h]

theorem rowInsert_cases (f k : Bool) (rows : List Row) (r : Row) :
    (rowInsert f k rows r).1 = rows ∨
      ((rowInsert f k rows r).1 = rows ++ [r] ∧ k = true) := by
  unfold rowInsert
  split
  · left; rfl
  · split
    · left; rfl
    · split
      · left; rfl
      · right
        refine ⟨rfl, ?_⟩
        rename_i hk
        simpa using hk

theorem segRowInsert_mem {rows : List SegRow} {r x : SegRow} (f : Bool)
    (h : x ∈ rows) : x ∈ (segRowInsert f rows r).1 := by
  unfold segRowInsert
  split
  · exact h
  · split
    · exact h
    · exact List.mem_append_left _ h

theorem segRowInsert_any {rows : List SegRow} {c : String} (f : Bool) (r : SegRow)
    (h : rows.any (fun x => x.code = c) = true) :
    ((segRowInsert f rows r).1).any (fun x => x.code = c) = true := by
  simp only [List.any_eq_true] at h ⊢
  obtain ⟨x, hx, he⟩ := h
  exact ⟨x, segRowInsert_mem f hx, he⟩

theorem segRowInsert_self {rows : List SegRow} {r : SegRow} :
    ((segRowInsert false rows r).1).any (fun x => x.code = r.code) = true := by
  unfold segRowInsert
  simp only [Bool.false_eq_true, if_false]
  split
  · assumption
  · simp

theorem segRowInsert_outcome {rows : List SegRow} {r : SegRow} :
    (segRowInsert false rows r).2 = .inserted ∨
      (segRowInsert false rows r).2 = .ignored := by
  unfold segRowInsert
  simp only [Bool.false_eq_true, if_false]
  split
  · right; rfl
  · left; rfl

theorem segRowInsert_dup {rows : List SegRow} {r : SegRow}
    (h : rows.any (fun x => x.code = r.code) = true) :
    segRowInsert false rows r = (rows, .ignored) := by
  unfold segRowInsert
  simp [h]

theorem segRowInsert_cases (f : Bool) (rows : List SegRow) (r : SegRow) :
    (segRowInsert f rows r).1 = rows ∨ (segRowInsert f rows r).1 = rows ++ [r] := by
  unfold segRowInsert
  split
  · left; rfl
  · split
    · left; rfl
    · right; rfl

theorem rowInsert_fst_mem {f k : Bool} {rows : List Row} {r x : Row}
    (h : x ∈ (rowInsert f k rows r).1) : x ∈ rows ∨ x = r := by
  rcases rowInsert_cases f k rows r with hc | ⟨hc, _⟩ <;> rw [hc] at h
  · exact Or.inl h
  · rcases List.mem_append.mp h with hm | hm
    · exact Or.inl hm
    · simp at hm
      exact Or.inr hm

theorem segRowInsert_fst_mem {f : Bool} {rows : List SegRow} {r x : SegRow}
    (h : x ∈ (segRowInsert f rows r).1) : x ∈ rows ∨ x = r := by
  rcases segRowInsert_cases f rows r with hc | hc <;> rw [hc] at h
  · exact Or.inl h
  · rcases List.mem_append.mp h with hm | hm
    · exact Or.inl hm
    · simp at hm
      exact Or.inr hm

theorem DBLe.refl (a : DB) : DBLe a a :=
  ⟨fun _ h => h, fun _ h => h, fun _ h => h, fun _ h => h, fun _ h => h, fun _ h => h⟩

theorem DBLe.trans {a b c : DB} (h1 : DBLe a b) (h2 : DBLe b c) : DBLe a c :=
  ⟨fun r h => h2.1 r (h1.1 r h), fun r h => h2.2.1 r (h1.2.1 r h),
    fun r h => h2.2.2.1 r (h1.2.2.1 r h), fun r h => h2.2.2.2.1 r (h1.2.2.2.1 r h),
    fun r h => h2.2.2.2.2.1 r (h1.2.2.2.2.1 r h),
    fun r h => h2.2.2.2.2.2 r (h1.2.2.2.2.2 r h)⟩

theorem DBLe.segKey {a b : DB} {c : String} (h : DBLe a b)
    (hc : segHasKey a c = true) : segHasKey b c = true := by
  simp only [segHasKey, List.any_eq_true] at hc ⊢
  obtain ⟨r, hr, he⟩ := hc
  exact ⟨r, h.1 r hr, he⟩

theorem DBLe.famKey {a b : DB} {c : String} (h : DBLe a b)
    (hc : famHasKey a c = true) : famHasKey b c = true := by
  simp only [famHasKey, List.any_eq_true] at hc ⊢
  obtain ⟨r, hr, he⟩ := hc
  exact ⟨r, h.2.1 r hr, he⟩

theorem DBLe.clsKey {a b : DB} {c : String} (h : DBLe a b)
    (hc : clsHasKey a c = true) : clsHasKey b c = true := by
  simp only [clsHasKey, List.any_eq_true] at hc ⊢
  obtain ⟨r, hr, he⟩ := hc
  exact ⟨r, h.2.2.1 r hr, he⟩

theorem DBLe.brkKey {a b : DB} {c : String} (h : DBLe a b)
    (hc : brkHasKey a c = true) : brkHasKey b c = true := by
  simp only [brkHasKey, List.any_eq_true] at hc ⊢
  obtain ⟨r, hr, he⟩ := hc
  exact ⟨r, h.2.2.2.1 r hr, he⟩

theorem DBLe.attKey {a b : DB} {c : String} (h : DBLe a b)
    (hc : attHasKey a c = true) : attHasKey b c = true := by
  simp only [attHasKey, List.any_eq_true] at hc ⊢
  obtain ⟨r, hr, he⟩ := hc
  exact ⟨r, h.2.2.2.2.1 r hr, he⟩

theorem DBLe.atvKey {a b : DB} {c : String} (h : DBLe a b)
    (hc : atvHasKey a c = true) : atvHasKey b c = true := by
  simp only [atvHasKey, List.any_eq_true] at hc ⊢
  obtain ⟨r, hr, he⟩ := hc
  exact ⟨r, h.2.2.2.2.2 r hr, he⟩

theorem insert_segment_dble (fault : Fault) (db : DB) (c d : String) :
    DBLe db (insert_segment fault db c d).1 :=
  ⟨fun _ hr => segRowInsert_mem _ hr, fun _ hr => hr, fun _ hr => hr,
    fun _ hr => hr, fun _ hr => hr, fun _ hr => hr⟩

theorem insert_family_dble (fault : Fault) (fk : Bool) (db : DB) (c d p : String) :
    DBLe db (insert_family fault fk db c d p).1 :=
  ⟨fun _ hr => hr, fun _ hr => rowInsert_mem _ _ hr, fun _ hr => hr,
    fun _ hr => hr, fun _ hr => hr, fun _ hr => hr⟩

theorem insert_class_dble (fault : Fault) (fk : Bool) (db : DB) (c d p : String) :
    DBLe db (insert_class fault fk db c d p).1 :=
  ⟨fun _ hr => hr, fun _ hr => hr, fun _ hr => rowInsert_mem _ _ hr,
    fun _ hr => hr, fun _ hr => hr, fun _ hr => hr⟩

theorem insert_brick_dble (fault : Fault) (fk : Bool) (db : DB) (c d p : String) :
    DBLe db (insert_brick fault fk db c d p).1 :=
  ⟨fun _ hr => hr, fun _ hr => hr, fun _ hr => hr,
    fun _ hr => rowInsert_mem _ _ hr, fun _ hr => hr, fun _ hr => hr⟩

theorem insert_attribute_type_dble (fault : Fault) (fk : Bool) (db : DB)
    (c d p : String) : DBLe db (insert_attribute_type fault fk db c d p).1 :=
  ⟨fun _ hr => hr, fun _ hr => hr, fun _ hr => hr, fun _ hr => hr,
    fun _ hr => rowInsert_mem _ _ hr, fun _ hr => hr⟩

theorem insert_attribute_value_dble (fault : Fault) (fk : Bool) (db : DB)
    (c d p : String) : DBLe db (insert_attribute_value fault fk db c d p).1 :=
  ⟨fun _ hr => hr, fun _ hr => hr, fun _ hr => hr, fun _ hr => hr,
    fun _ hr => hr, fun _ hr => rowInsert_mem _ _ hr⟩

theorem insert_segment_dup (db : DB) (c d : String) (h : segHasKey db c = true) :
    insert_segment [] db c d = (db, .ignored) := by
  have hd := @segRowInsert_dup db.segments ⟨c, d⟩ h
  unfold insert_segment
  simp only [hasFault_nil]
  rw [hd]

theorem insert_family_dup (fk : Bool) (db : DB) (c d p : String)
    (h : famHasKey db c = true) :
    insert_family [] fk db c d p = (db, .ignored) := by
  have hd := @rowInsert_dup db.families ⟨c, d, p⟩ (!fk || segHasKey db p) h
  unfold insert_family
  simp only [hasFault_nil]
  rw [hd]

theorem insert_class_dup (fk : Bool) (db : DB) (c d p : String)
    (h : clsHasKey db c = true) :
    insert_class [] fk db c d p = (db, .ignored) := by
  have hd := @rowInsert_dup db.classes ⟨c, d, p⟩ (!fk || famHasKey db p) h
  unfold insert_class
  simp only [hasFault_nil]
  rw [hd]

theorem insert_brick_dup (fk : Bool) (db : DB) (c d p : String)
    (h : brkHasKey db c = true) :
    insert_brick [] fk db c d p = (db, .ignored) := by
  have hd := @rowInsert_dup db.bricks ⟨c, d, p⟩ (!fk || clsHasKey db p) h
  unfold insert_brick
  simp only [hasFault_nil]
  rw [hd]

theorem insert_attribute_type_dup (fk : Bool) (db : DB) (c d p : String)
    (h : attHasKey db c = true) :
    insert_attribute_type [] fk db c d p = (db, .ignored) := by
  have hd := @rowInsert_dup db.attribute_types ⟨c, d, p⟩ (!fk || brkHasKey db p) h
  unfold insert_attribute_type
  simp only [hasFault_nil]
  rw [hd]

theorem insert_attribute_value_dup (fk : Bool) (db : DB) (c d p : String)
    (h : atvHasKey db c = true) :
    insert_attribute_value [] fk db c d p = (db, .ignored) := by
  have hd := @rowInsert_dup db.attribute_values ⟨c, d, p⟩ (!fk || attHasKey db p) h
  unfold insert_attribute_value
  simp only [hasFault_nil]
  rw [hd]

theorem insert_segment_self (db : DB) (c d : String) :
    segHasKey (insert_segment [] db c d).1 c = true :=
  segRowInsert_self

theorem insert_segment_outcome (db : DB) (c d : String) :
    (insert_segment [] db c d).2 = .inserted ∨
      (insert_segment [] db c d).2 = .ignored :=
  segRowInsert_outcome

theorem insert_family_self (db : DB) (c d p : String)
    (hp : segHasKey db p = true) :
    famHasKey (insert_family [] true db c d p).1 c = true := by
  unfold insert_family famHasKey
  have h2 : (!true || segHasKey db p) = true := by simp [hp]
  rw [h2]
  exact rowInsert_self

theorem insert_family_outcome (db : DB) (c d p : String)
    (hp : segHasKey db p = true) :
    (insert_family [] true db c d p).2 = .inserted ∨
      (insert_family [] true db c d p).2 = .ignored := by
  unfold insert_family
  have h2 : (!true || segHasKey db p) = true := by simp [hp]
  rw [h2]
  exact rowInsert_outcome

theorem insert_class_self (db : DB) (c d p : String)
    (hp : famHasKey db p = true) :
    clsHasKey (insert_class [] true db c d p).1 c = true := by
  unfold insert_class clsHasKey
  have h2 : (!true || famHasKey db p) = true := by simp [hp]
  rw [h2]
  exact rowInsert_self

theorem insert_class_outcome (db : DB) (c d p : String)
    (hp : famHasKey db p = true) :
    (insert_class [] true db c d p).2 = .inserted ∨
      (insert_class [] true db c d p).2 = .ignored := by
  unfold insert_class
  have h2 : (!true || famHasKey db p) = true := by simp [hp]
  rw [h2]
  exact rowInsert_outcome

theorem insert_brick_self (db : DB) (c d p : String)
    (hp : clsHasKey db p = true) :
    brkHasKey (insert_brick [] true db c d p).1 c = true := by
  unfold insert_brick brkHasKey
  have h2 : (!true || clsHasKey db p) = true := by simp [hp]
  rw [h2]
  exact rowInsert_self

theorem insert_brick_outcome (db : DB) (c d p : String)
    (hp : clsHasKey db p = true) :
    (insert_brick [] true db c d p).2 = .inserted ∨
      (insert_brick [] true db c d p).2 = .ignored := by
  unfold insert_brick
  have h2 : (!true || clsHasKey db p) = true := by simp [hp]
  rw [h2]
  exact rowInsert_outcome

theorem insert_attribute_type_self (db : DB) (c d p : String)
    (hp : brkHasKey db p = true) :
    attHasKey (insert_attribute_type [] true db c d p).1 c = true := by
  unfold insert_attribute_type attHasKey
  have h2 : (!true || brkHasKey db p) = true := by simp [hp]
  rw [h2]
  exact rowInsert_self

theorem insert_attribute_type_outcome (db : DB) (c d p : String)
    (hp : brkHasKey db p = true) :
    (insert_attribute_type [] true db c d p).2 = .inserted ∨
      (insert_attribute_type [] true db c d p).2 = .ignored := by
  unfold insert_attribute_type
  have h2 : (!true || brkHasKey db p) = true := by simp [hp]
  rw [h2]
  exact rowInsert_outcome

theorem insert_attribute_value_self (db : DB) (c d p : String)
    (hp : attHasKey db p = true) :
    atvHasKey (insert_attribute_value [] true db c d p).1 c = true := by
  unfold insert_attribute_value atvHasKey
  have h2 : (!true || attHasKey db p) = true := by simp [hp]
  rw [h2]
  exact rowInsert_self

theorem insert_attribute_value_outcome (db : DB) (c d p : String)
    (hp : attHasKey db p = true) :
    (insert_attribute_value [] true db c d p).2 = .inserted ∨
      (insert_attribute_value [] true db c d p).2 = .ignored := by
  unfold insert_attribute_value
  have h2 : (!true || attHasKey db p) = true := by simp [hp]
  rw [h2]
  exact rowInsert_outcome

theorem insert_segment_refint (fault : Fault) (db : DB) (c d : String)
    (h : RefInt db) : RefInt (insert_segment fault db c d).1 := by
  obtain ⟨h1, h2, h3, h4, h5⟩ := h
  exact ⟨fun r hr => segRowInsert_any _ _ (h1 r hr), h2, h3, h4, h5⟩

theorem insert_family_refint (fault : Fault) (db : DB) (c d p : String)
    (h : RefInt db) : RefInt (insert_family fault true db c d p).1 := by
  obtain ⟨h1, h2, h3, h4, h5⟩ := h
  refine ⟨?_, fun r hr => rowInsert_any _ _ _ (h2 r hr), h3, h4, h5⟩
  intro r hr
  have hr' : r ∈ (rowInsert (hasFault fault .fam c) (!true || segHasKey db p)
      db.families ⟨c, d, p⟩).1 := hr
  rcases rowInsert_cases (hasFault fault .fam c) (!true || segHasKey db p)
      db.families ⟨c, d, p⟩ with hc | ⟨hc, hk⟩ <;> rw [hc] at hr'
  · exact h1 r hr'
  · rcases List.mem_append.mp hr' with hm | hm
    · exact h1 r hm
    · have he : r = ⟨c, d, p⟩ := by simpa using hm
      subst he
      have hk' : segHasKey db p = true := by simpa using hk
      exact hk'

theorem insert_class_refint (fault : Fault) (db : DB) (c d p : String)
    (h : RefInt db) : RefInt (insert_class fault true db c d p).1 := by
  obtain ⟨h1, h2, h3, h4, h5⟩ := h
  refine ⟨h1, ?_, fun r hr => rowInsert_any _ _ _ (h3 r hr), h4, h5⟩
  intro r hr
  have hr' : r ∈ (rowInsert (hasFault fault .cls c) (!true || famHasKey db p)
      db.classes ⟨c, d, p⟩).1 := hr
  rcases rowInsert_cases (hasFault fault .cls c) (!true || famHasKey db p)
      db.classes ⟨c, d, p⟩ with hc | ⟨hc, hk⟩ <;> rw [hc] at hr'
  · exact h2 r hr'
  · rcases List.mem_append.mp hr' with hm | hm
    · exact h2 r hm
    · have he : r = ⟨c, d, p⟩ := by simpa using hm
      subst he
      have hk' : famHasKey db p = true := by simpa using hk
      exact hk'

theorem insert_brick_refint (fault : Fault) (db : DB) (c d p : String)
    (h : RefInt db) : RefInt (insert_brick fault true db c d p).1 := by
  obtain ⟨h1, h2, h3, h4, h5⟩ := h
  refine ⟨h1, h2, ?_, fun r hr => rowInsert_any _ _ _ (h4 r hr), h5⟩
  intro r hr
  have hr' : r ∈ (rowInsert (hasFault fault .brk c) (!true || clsHasKey db p)
      db.bricks ⟨c, d, p⟩).1 := hr
  rcases rowInsert_cases (hasFault fault .brk c) (!true || clsHasKey db p)
      db.bricks ⟨c, d, p⟩ with hc | ⟨hc, hk⟩ <;> rw [hc] at hr'
  · exact h3 r hr'
  · rcases List.mem_append.mp hr' with hm | hm
    · exact h3 r hm
    · have he : r = ⟨c, d, p⟩ := by simpa using hm
      subst he
      have hk' : clsHasKey db p = true := by simpa using hk
      exact hk'

theorem insert_attribute_type_refint (fault : Fault) (db : DB) (c d p : String)
    (h : RefInt db) : RefInt (insert_attribute_type fault true db c d p).1 := by
  obtain ⟨h1, h2, h3, h4, h5⟩ := h
  refine ⟨h1, h2, h3, ?_, fun r hr => rowInsert_any _ _ _ (h5 r hr)⟩
  intro r hr
  have hr' : r ∈ (rowInsert (hasFault fault .att c) (!true || brkHasKey db p)
      db.attribute_types ⟨c, d, p⟩).1 := hr
  rcases rowInsert_cases (hasFault fault .att c) (!true || brkHasKey db p)
      db.attribute_types ⟨c, d, p⟩ with hc | ⟨hc, hk⟩ <;> rw [hc] at hr'
  · exact h4 r hr'
  · rcases List.mem_append.mp hr' with hm | hm
    · exact h4 r hm
    · have he : r = ⟨c, d, p⟩ := by simpa using hm
      subst he
      have hk' : brkHasKey db p = true := by simpa using hk
      exact hk'

theorem insert_attribute_value_refint (fault : Fault) (db : DB) (c d p : String)
    (h : RefInt db) : RefInt (insert_attribute_value fault true db c d p).1 := by
  obtain ⟨h1, h2, h3, h4, h5⟩ := h
  refine ⟨h1, h2, h3, h4, ?_⟩
  intro r hr
  have hr' : r ∈ (rowInsert (hasFault fault .atv c) (!true || attHasKey db p)
      db.attribute_values ⟨c, d, p⟩).1 := hr
  rcases rowInsert_cases (hasFault fault .atv c) (!true || attHasKey db p)
      db.attribute_values ⟨c, d, p⟩ with hc | ⟨hc, hk⟩ <;> rw [hc] at hr'
  · exact h5 r hr'
  · rcases List.mem_append.mp hr' with hm | hm
    · exact h5 r hm
    · have he : r = ⟨c, d, p⟩ := by simpa using hm
      subst he
      have hk' : attHasKey db p = true := by simpa using hk
      exact hk'

theorem outcomeStats_balanced {o : InsOutcome}
    (h : o = .inserted ∨ o = .ignored) : (outcomeStats o).Balanced := by
  rcases h with h | h <;> subst h <;> rfl

theorem outcomeStats_ignored_inserted : (outcomeStats .ignored).inserted = 0 := rfl

theorem procAttValues_ps (fault : Fault) (p : String) (db : DB)
    (l : List AttValueElem) :
    (procAttValues fault p db l).2.1.ps = specCountAVs l := by
  induction l generalizing db with
  | nil => simp [procAttValues, specCountAVs, Stats.ps_zero]
  | cons e es ih =>
    simp only [procAttValues]
    rw [stats_ps_add, ih]
    congr 1
    cases hb : blank e.code || blank e.text
    · simp [procAttValue, hb, specCountAV, Stats.ps_inAvs, outcomeStats_ps]
    · simp [procAttValue, hb, specCountAV, Stats.ps_inAvs, skipUnit_ps]

theorem procAttValues_events (fault : Fault) (p : String) (db : DB)
    (l : List AttValueElem) :
    (procAttValues fault p db l).2.2 = evAVs l := by
  induction l generalizing db with
  | nil => simp [procAttValues, evAVs]
  | cons e es ih =>
    simp only [procAttValues]
    cases hb : blank e.code || blank e.text <;>
      simp [procAttValue, hb, evAVs, evAV, ih]

theorem procAttValues_dble (fault : Fault) (p : String) (db : DB)
    (l : List AttValueElem) : DBLe db (procAttValues fault p db l).1 := by
  induction l generalizing db with
  | nil => exact DBLe.refl db
  | cons e es ih =>
    have h1 : DBLe db (procAttValue fault p db e).1 := by
      unfold procAttValue
      split
      · exact DBLe.refl db
      · exact insert_attribute_value_dble _ _ _ _ _ _
    simp only [procAttValues]
    exact DBLe.trans h1 (ih _)

theorem procAttValues_refint (fault : Fault) (p : String) (db : DB)
    (l : List AttValueElem) (h : RefInt db) :
    RefInt (procAttValues fault p db l).1 := by
  induction l generalizing db with
  | nil => exact h
  | cons e es ih =>
    simp only [procAttValues]
    apply ih
    unfold procAttValue
    split
    · exact h
    · exact insert_attribute_value_refint _ _ _ _ _ h

theorem avSat_mono {a b : DB} {l : List AttValueElem} (hle : DBLe a b)
    (h : avSat a l) : avSat b l := by
  intro e he
  rcases h e he with hb | hk
  · exact Or.inl hb
  · exact Or.inr (hle.atvKey hk)

theorem procAttValues_nofault (p : String) (db : DB) (l : List AttValueElem)
    (hp : attHasKey db p = true) :
    (procAttValues [] p db l).2.1.Balanced ∧
      avSat (procAttValues [] p db l).1 l := by
  induction l generalizing db with
  | nil => exact ⟨balanced_zero_stats, fun e he => absurd he (List.not_mem_nil e)⟩
  | cons e es ih =>
    have hstep : (procAttValue [] p db e).2.1.Balanced ∧
        attHasKey (procAttValue [] p db e).1 p = true ∧
        ((blank e.code || blank e.text) = true ∨
          atvHasKey (procAttValue [] p db e).1 (e.code.getD "") = true) := by
      cases hb : blank e.code || blank e.text
      · have hout := insert_attribute_value_outcome db (e.code.getD "")
          (e.text.getD "") p hp
        have hself := insert_attribute_value_self db (e.code.getD "")
          (e.text.getD "") p hp
        refine ⟨?_, ?_, Or.inr ?_⟩
        · have : (procAttValue [] p db e).2.1 =
              Stats.inAvs (outcomeStats
                (insert_attribute_value [] true db (e.code.getD "") (e.text.getD "") p).2) := by
            simp [procAttValue, hb, xmlForeignKeysEnabled]
          rw [this]
          exact balanced_inAvs (outcomeStats_balanced hout)
        · have : (procAttValue [] p db e).1 =
              (insert_attribute_value [] true db (e.code.getD "") (e.text.getD "") p).1 := by
            simp [procAttValue, hb, xmlForeignKeysEnabled]
          rw [this]
          exact hp
        · have : (procAttValue [] p db e).1 =
              (insert_attribute_value [] true db (e.code.getD "") (e.text.getD "") p).1 := by
            simp [procAttValue, hb, xmlForeignKeysEnabled]
          rw [this]
          exact hself
      · have : procAttValue [] p db e = (db, Stats.inAvs skipUnit, []) := by
          simp [procAttValue, hb]
        rw [this]
        exact ⟨balanced_inAvs skipUnit_balanced, hp, Or.inl rfl⟩
    obtain ⟨hb1, hp1, hk1⟩ := hstep
    obtain ⟨hb2, hs2⟩ := ih (procAttValue [] p db e).1 hp1
    simp only [procAttValues]
    constructor
    · exact balanced_add_stats hb1 hb2
    · intro x hx
      rcases List.mem_cons.mp hx with hxe | hxe

      · subst hxe
        rcases hk1 with hbl | hkey
        · exact Or.inl hbl
        · exact Or.inr ((procAttValues_dble [] p _ es).atvKey hkey)
      · exact hs2 x hxe

theorem procAttValues_noop (p : String) (db : DB) (l : List AttValueElem)
    (h : avSat db l) :
    (procAttValues [] p db l).1 = db ∧
      (procAttValues [] p db l).2.1.InsertedZero := by
  induction l with
  | nil => exact ⟨rfl, inserted_zero_zero⟩
  | cons e es ih =>
    have htail : avSat db es := fun x hx => h x (List.mem_cons_of_mem e hx)
    obtain ⟨hd, hz⟩ := ih htail
    cases hb : blank e.code || blank e.text
    · have hk : atvHasKey db (e.code.getD "") = true := by
        rcases h e (List.mem_cons_self e es) with hbl | hkey
        · rw [hb] at hbl
          cases hbl
        · exact hkey
      have hins := insert_attribute_value_dup true db (e.code.getD "")
        (e.text.getD "") p hk
      have hstep : procAttValue [] p db e =
          (db, Stats.inAvs (outcomeStats .ignored),
            [Event.insertAttempt .atv (e.code.getD "")]) := by
        simp [procAttValue, hb, xmlForeignKeysEnabled, hins]
      simp only [procAttValues, hstep]
      exact ⟨by simpa using hd,
        inserted_zero_add (inserted_zero_inAvs outcomeStats_ignored_inserted) hz⟩
    · have hstep : procAttValue [] p db e = (db, Stats.inAvs skipUnit, []) := by
        simp [procAttValue, hb]
      simp only [procAttValues, hstep]
      exact ⟨by simpa using hd,
        inserted_zero_add (inserted_zero_inAvs skipUnit_inserted) hz⟩


theorem procAttTypes_ps (fault : Fault) (p : String) (db : DB)
    (l : List AttTypeElem) :
    (procAttTypes fault p db l).2.1.ps = specCountATs l := by
  induction l generalizing db with
  | nil => simp [procAttTypes, specCountATs, Stats.ps_zero]
  | cons e es ih =>
    simp only [procAttTypes]
    rw [stats_ps_add, ih]
    congr 1
    cases hb : blank e.code || blank e.text
    · simp [procAttType, hb, specCountAT, stats_ps_add, Stats.ps_inAts, outcomeStats_ps,
        procAttValues_ps]
    · simp [procAttType, hb, specCountAT, Stats.ps_inAts, skipUnit_ps]

theorem procAttTypes_events (fault : Fault) (p : String) (db : DB)
    (l : List AttTypeElem) :
    (procAttTypes fault p db l).2.2 = evATs l := by
  induction l generalizing db with
  | nil => simp [procAttTypes, evATs]
  | cons e es ih =>
    simp only [procAttTypes]
    cases hb : blank e.code || blank e.text <;>
      simp [procAttType, hb, evATs, evAT, ih, procAttValues_events]

theorem procAttTypes_dble (fault : Fault) (p : String) (db : DB)
    (l : List AttTypeElem) : DBLe db (procAttTypes fault p db l).1 := by
  induction l generalizing db with
  | nil => exact DBLe.refl db
  | cons e es ih =>
    have h1 : DBLe db (procAttType fault p db e).1 := by
      unfold procAttType
      split
      · exact DBLe.refl db
      · exact DBLe.trans (insert_attribute_type_dble _ _ _ _ _ _) (procAttValues_dble _ _ _ _)
    simp only [procAttTypes]
    exact DBLe.trans h1 (ih _)

theorem procAttTypes_refint (fault : Fault) (p : String) (db : DB)
    (l : List AttTypeElem) (h : RefInt db) :
    RefInt (procAttTypes fault p db l).1 := by
  induction l generalizing db with
  | nil => exact h
  | cons e es ih =>
    simp only [procAttTypes]
    apply ih
    unfold procAttType
    split
    · exact h
    · exact procAttValues_refint _ _ _ _ (insert_attribute_type_refint _ _ _ _ _ h)

theorem atSat_mono {a b : DB} {l : List AttTypeElem} (hle : DBLe a b)
    (h : atSat a l) : atSat b l := by
  intro e he
  rcases h e he with hb | ⟨hk, hv⟩
  · exact Or.inl hb
  · exact Or.inr ⟨hle.attKey hk, avSat_mono hle hv⟩

theorem procAttTypes_nofault (p : String) (db : DB) (l : List AttTypeElem)
    (hp : brkHasKey db p = true) :
    (procAttTypes [] p db l).2.1.Balanced ∧ atSat (procAttTypes [] p db l).1 l := by
  induction l generalizing db with
  | nil => exact ⟨balanced_zero_stats, fun e he => absurd he (List.not_mem_nil e)⟩
  | cons e es ih =>
    have hstep : (procAttType [] p db e).2.1.Balanced ∧
        brkHasKey (procAttType [] p db e).1 p = true ∧
        ((blank e.code || blank e.text) = true ∨
          (attHasKey (procAttType [] p db e).1 (e.code.getD "") = true ∧
            avSat (procAttType [] p db e).1 e.values)) := by
      cases hb : blank e.code || blank e.text
      · have hout := insert_attribute_type_outcome db (e.code.getD "") (e.text.getD "") p hp
        have hself := insert_attribute_type_self db (e.code.getD "") (e.text.getD "") p hp
        have hp1 : brkHasKey (insert_attribute_type [] true db (e.code.getD "") (e.text.getD "") p).1
            p = true := hp
        obtain ⟨hcb, hcs⟩ := procAttValues_nofault (e.code.getD "")
          (insert_attribute_type [] true db (e.code.getD "") (e.text.getD "") p).1 e.values hself
        have hle := procAttValues_dble ([] : Fault) (e.code.getD "")
          (insert_attribute_type [] true db (e.code.getD "") (e.text.getD "") p).1 e.values
        have hd : (procAttType [] p db e).1 =
            (procAttValues [] (e.code.getD "")
              (insert_attribute_type [] true db (e.code.getD "") (e.text.getD "") p).1 e.values).1 := by
          simp [procAttType, hb, xmlForeignKeysEnabled]
        have hs : (procAttType [] p db e).2.1 =
            Stats.inAts (outcomeStats
                (insert_attribute_type [] true db (e.code.getD "") (e.text.getD "") p).2) +
              (procAttValues [] (e.code.getD "")
                (insert_attribute_type [] true db (e.code.getD "") (e.text.getD "") p).1 e.values).2.1 := by
          simp [procAttType, hb, xmlForeignKeysEnabled]
        refine ⟨?_, ?_, Or.inr ⟨?_, ?_⟩⟩
        · rw [hs]
          exact balanced_add_stats (balanced_inAts (outcomeStats_balanced hout)) hcb
        · rw [hd]
          exact hle.brkKey hp1
        · rw [hd]
          exact hle.attKey hself
        · rw [hd]
          exact hcs
      · have hstep0 : procAttType [] p db e = (db, Stats.inAts skipUnit, []) := by
          simp [procAttType, hb]
        rw [hstep0]
        exact ⟨balanced_inAts skipUnit_balanced, hp, Or.inl rfl⟩
    obtain ⟨hb1, hp1, hk1⟩ := hstep
    obtain ⟨hb2, hs2⟩ := ih (procAttType [] p db e).1 hp1
    simp only [procAttTypes]
    constructor
    · exact balanced_add_stats hb1 hb2
    · intro x hx
      rcases List.mem_cons.mp hx with hxe | hxe
      · subst hxe
        rcases hk1 with hbl | ⟨hkey, hsat⟩
        · exact Or.inl hbl
        · exact Or.inr ⟨(procAttTypes_dble ([] : Fault) p _ es).attKey hkey,
            avSat_mono (procAttTypes_dble ([] : Fault) p _ es) hsat⟩
      · exact hs2 x hxe

theorem procAttTypes_noop (p : String) (db : DB) (l : List AttTypeElem)
    (h : atSat db l) :
    (procAttTypes [] p db l).1 = db ∧ (procAttTypes [] p db l).2.1.InsertedZero := by
  induction l with
  | nil => exact ⟨rfl, inserted_zero_zero⟩
  | cons e es ih =>
    have htail : atSat db es := fun x hx => h x (List.mem_cons_of_mem e hx)
    obtain ⟨hd, hz⟩ := ih htail
    cases hb : blank e.code || blank e.text
    · have hk : attHasKey db (e.code.getD "") = true ∧ avSat db e.values := by
        rcases h e (List.mem_cons_self e es) with hbl | hkey
        · rw [hb] at hbl
          cases hbl
        · exact hkey
      have hins := insert_attribute_type_dup true db (e.code.getD "") (e.text.getD "") p hk.1
      obtain ⟨hcd, hcz⟩ := procAttValues_noop (e.code.getD "") db e.values hk.2
      have hstep1 : (procAttType [] p db e).1 = db := by
        simp [procAttType, hb, xmlForeignKeysEnabled, hins, hcd]
      have hstep2 : (procAttType [] p db e).2.1.InsertedZero := by
        have hq : (procAttType [] p db e).2.1 =
            Stats.inAts (outcomeStats .ignored) +
              (procAttValues [] (e.code.getD "") db e.values).2.1 := by
          simp [procAttType, hb, xmlForeignKeysEnabled, hins]
        rw [hq]
        exact inserted_zero_add (inserted_zero_inAts outcomeStats_ignored_inserted) hcz
      simp only [procAttTypes]
      constructor
      · rw [hstep1]
        exact hd
      · rw [hstep1]
        exact inserted_zero_add hstep2 hz
    · have hstep0 : procAttType [] p db e = (db, Stats.inAts skipUnit, []) := by
        simp [procAttType, hb]
      simp only [procAttTypes, hstep0]
      exact ⟨by simpa using hd, inserted_zero_add (inserted_zero_inAts skipUnit_inserted) hz⟩


theorem procBricks_ps (fault : Fault) (p : String) (db : DB)
    (l : List BrickElem) :
    (procBricks fault p db l).2.1.ps = specCountBRs l := by
  induction l generalizing db with
  | nil => simp [procBricks, specCountBRs, Stats.ps_zero]
  | cons e es ih =>
    simp only [procBricks]
    rw [stats_ps_add, ih]
    congr 1
    cases hb : blank e.code || blank e.text
    · simp [procBrick, hb, specCountBR, stats_ps_add, Stats.ps_inBrs, outcomeStats_ps,
        procAttTypes_ps]
    · simp [procBrick, hb, specCountBR, Stats.ps_inBrs, skipUnit_ps]

theorem procBricks_events (fault : Fault) (p : String) (db : DB)
    (l : List BrickElem) :
    (procBricks fault p db l).2.2 = evBRs l := by
  induction l generalizing db with
  | nil => simp [procBricks, evBRs]
  | cons e es ih =>
    simp only [procBricks]
    cases hb : blank e.code || blank e.text <;>
      simp [procBrick, hb, evBRs, evBR, ih, procAttTypes_events]

theorem procBricks_dble (fault : Fault) (p : String) (db : DB)
    (l : List BrickElem) : DBLe db (procBricks fault p db l).1 := by
  induction l generalizing db with
  | nil => exact DBLe.refl db
  | cons e es ih =>
    have h1 : DBLe db (procBrick fault p db e).1 := by
      unfold procBrick
      split
      · exact DBLe.refl db
      · exact DBLe.trans (insert_brick_dble _ _ _ _ _ _) (procAttTypes_dble _ _ _ _)
    simp only [procBricks]
    exact DBLe.trans h1 (ih _)

theorem procBricks_refint (fault : Fault) (p : String) (db : DB)
    (l : List BrickElem) (h : RefInt db) :
    RefInt (procBricks fault p db l).1 := by
  induction l generalizing db with
  | nil => exact h
  | cons e es ih =>
    simp only [procBricks]
    apply ih
    unfold procBrick
    split
    · exact h
    · exact procAttTypes_refint _ _ _ _ (insert_brick_refint _ _ _ _ _ h)

theorem brSat_mono {a b : DB} {l : List BrickElem} (hle : DBLe a b)
    (h : brSat a l) : brSat b l := by
  intro e he
  rcases h e he with hb | ⟨hk, hv⟩
  · exact Or.inl hb
  · exact Or.inr ⟨hle.brkKey hk, atSat_mono hle hv⟩

theorem procBricks_nofault (p : String) (db : DB) (l : List BrickElem)
    (hp : clsHasKey db p = true) :
    (procBricks [] p db l).2.1.Balanced ∧ brSat (procBricks [] p db l).1 l := by
  induction l generalizing db with
  | nil => exact ⟨balanced_zero_stats, fun e he => absurd he (List.not_mem_nil e)⟩
  | cons e es ih =>
    have hstep : (procBrick [] p db e).2.1.Balanced ∧
        clsHasKey (procBrick [] p db e).1 p = true ∧
        ((blank e.code || blank e.text) = true ∨
          (brkHasKey (procBrick [] p db e).1 (e.code.getD "") = true ∧
            atSat (procBrick [] p db e).1 e.attTypes)) := by
      cases hb : blank e.code || blank e.text
      · have hout := insert_brick_outcome db (e.code.getD "") (e.text.getD "") p hp
        have hself := insert_brick_self db (e.code.getD "") (e.text.getD "") p hp
        have hp1 : clsHasKey (insert_brick [] true db (e.code.getD "") (e.text.getD "") p).1
            p = true := hp
        obtain ⟨hcb, hcs⟩ := procAttTypes_nofault (e.code.getD "")
          (insert_brick [] true db (e.code.getD "") (e.text.getD "") p).1 e.attTypes hself
        have hle := procAttTypes_dble ([] : Fault) (e.code.getD "")
          (insert_brick [] true db (e.code.getD "") (e.text.getD "") p).1 e.attTypes
        have hd : (procBrick [] p db e).1 =
            (procAttTypes [] (e.code.getD "")
              (insert_brick [] true db (e.code.getD "") (e.text.getD "") p).1 e.attTypes).1 := by
          simp [procBrick, hb, xmlForeignKeysEnabled]
        have hs : (procBrick [] p db e).2.1 =
            Stats.inBrs (outcomeStats
                (insert_brick [] true db (e.code.getD "") (e.text.getD "") p).2) +
              (procAttTypes [] (e.code.getD "")
                (insert_brick [] true db (e.code.getD "") (e.text.getD "") p).1 e.attTypes).2.1 := by
          simp [procBrick, hb, xmlForeignKeysEnabled]
        refine ⟨?_, ?_, Or.inr ⟨?_, ?_⟩⟩
        · rw [hs]
          exact balanced_add_stats (balanced_inBrs (outcomeStats_balanced hout)) hcb
        · rw [hd]
          exact hle.clsKey hp1
        · rw [hd]
          exact hle.brkKey hself
        · rw [hd]
          exact hcs
      · have hstep0 : procBrick [] p db e = (db, Stats.inBrs skipUnit, []) := by
          simp [procBrick, hb]
        rw [hstep0]
        exact ⟨balanced_inBrs skipUnit_balanced, hp, Or.inl rfl⟩
    obtain ⟨hb1, hp1, hk1⟩ := hstep
    obtain ⟨hb2, hs2⟩ := ih (procBrick [] p db e).1 hp1
    simp only [procBricks]
    constructor
    · exact balanced_add_stats hb1 hb2
    · intro x hx
      rcases List.mem_cons.mp hx with hxe | hxe
      · subst hxe
        rcases hk1 with hbl | ⟨hkey, hsat⟩
        · exact Or.inl hbl
        · exact Or.inr ⟨(procBricks_dble ([] : Fault) p _ es).brkKey hkey,
            atSat_mono (procBricks_dble ([] : Fault) p _ es) hsat⟩
      · exact hs2 x hxe

theorem procBricks_noop (p : String) (db : DB) (l : List BrickElem)
    (h : brSat db l) :
    (procBricks [] p db l).1 = db ∧ (procBricks [] p db l).2.1.InsertedZero := by
  induction l with
  | nil => exact ⟨rfl, inserted_zero_zero⟩
  | cons e es ih =>
    have htail : brSat db es := fun x hx => h x (List.mem_cons_of_mem e hx)
    obtain ⟨hd, hz⟩ := ih htail
    cases hb : blank e.code || blank e.text
    · have hk : brkHasKey db (e.code.getD "") = true ∧ atSat db e.attTypes := by
        rcases h e (List.mem_cons_self e es) with hbl | hkey
        · rw [hb] at hbl
          cases hbl
        · exact hkey
      have hins := insert_brick_dup true db (e.code.getD "") (e.text.getD "") p hk.1
      obtain ⟨hcd, hcz⟩ := procAttTypes_noop (e.code.getD "") db e.attTypes hk.2
      have hstep1 : (procBrick [] p db e).1 = db := by
        simp [procBrick, hb, xmlForeignKeysEnabled, hins, hcd]
      have hstep2 : (procBrick [] p db e).2.1.InsertedZero := by
        have hq : (procBrick [] p db e).2.1 =
            Stats.inBrs (outcomeStats .ignored) +
              (procAttTypes [] (e.code.getD "") db e.attTypes).2.1 := by
          simp [procBrick, hb, xmlForeignKeysEnabled, hins]
        rw [hq]
        exact inserted_zero_add (inserted_zero_inBrs outcomeStats_ignored_inserted) hcz
      simp only [procBricks]
      constructor
      · rw [hstep1]
        exact hd
      · rw [hstep1]
        exact inserted_zero_add hstep2 hz
    · have hstep0 : procBrick [] p db e = (db, Stats.inBrs skipUnit, []) := by
        simp [procBrick, hb]
      simp only [procBricks, hstep0]
      exact ⟨by simpa using hd, inserted_zero_add (inserted_zero_inBrs skipUnit_inserted) hz⟩


theorem procClasses_ps (fault : Fault) (p : String) (db : DB)
    (l : List ClassElem) :
    (procClasses fault p db l).2.1.ps = specCountCLs l := by
  induction l generalizing db with
  | nil => simp [procClasses, specCountCLs, Stats.ps_zero]
  | cons e es ih =>
    simp only [procClasses]
    rw [stats_ps_add, ih]
    congr 1
    cases hb : blank e.code || blank e.text
    · simp [procClass, hb, specCountCL, stats_ps_add, Stats.ps_inCls, outcomeStats_ps,
        procBricks_ps]
    · simp [procClass, hb, specCountCL, Stats.ps_inCls, skipUnit_ps]

theorem procClasses_events (fault : Fault) (p : String) (db : DB)
    (l : List ClassElem) :
    (procClasses fault p db l).2.2 = evCLs l := by
  induction l generalizing db with
  | nil => simp [procClasses, evCLs]
  | cons e es ih =>
    simp only [procClasses]
    cases hb : blank e.code || blank e.text <;>
      simp [procClass, hb, evCLs, evCL, ih, procBricks_events]

theorem procClasses_dble (fault : Fault) (p : String) (db : DB)
    (l : List ClassElem) : DBLe db (procClasses fault p db l).1 := by
  induction l generalizing db with
  | nil => exact DBLe.refl db
  | cons e es ih =>
    have h1 : DBLe db (procClass fault p db e).1 := by
      unfold procClass
      split
      · exact DBLe.refl db
      · exact DBLe.trans (insert_class_dble _ _ _ _ _ _) (procBricks_dble _ _ _ _)
    simp only [procClasses]
    exact DBLe.trans h1 (ih _)

theorem procClasses_refint (fault : Fault) (p : String) (db : DB)
    (l : List ClassElem) (h : RefInt db) :
    RefInt (procClasses fault p db l).1 := by
  induction l generalizing db with
  | nil => exact h
  | cons e es ih =>
    simp only [procClasses]
    apply ih
    unfold procClass
    split
    · exact h
    · exact procBricks_refint _ _ _ _ (insert_class_refint _ _ _ _ _ h)

theorem clSat_mono {a b : DB} {l : List ClassElem} (hle : DBLe a b)
    (h : clSat a l) : clSat b l := by
  intro e he
  rcases h e he with hb | ⟨hk, hv⟩
  · exact Or.inl hb
  · exact Or.inr ⟨hle.clsKey hk, brSat_mono hle hv⟩

theorem procClasses_nofault (p : String) (db : DB) (l : List ClassElem)
    (hp : famHasKey db p = true) :
    (procClasses [] p db l).2.1.Balanced ∧ clSat (procClasses [] p db l).1 l := by
  induction l generalizing db with
  | nil => exact ⟨balanced_zero_stats, fun e he => absurd he (List.not_mem_nil e)⟩
  | cons e es ih =>
    have hstep : (procClass [] p db e).2.1.Balanced ∧
        famHasKey (procClass [] p db e).1 p = true ∧
        ((blank e.code || blank e.text) = true ∨
          (clsHasKey (procClass [] p db e).1 (e.code.getD "") = true ∧
            brSat (procClass [] p db e).1 e.bricks)) := by
      cases hb : blank e.code || blank e.text
      · have hout := insert_class_outcome db (e.code.getD "") (e.text.getD "") p hp
        have hself := insert_class_self db (e.code.getD "") (e.text.getD "") p hp
        have hp1 : famHasKey (insert_class [] true db (e.code.getD "") (e.text.getD "") p).1
            p = true := hp
        obtain ⟨hcb, hcs⟩ := procBricks_nofault (e.code.getD "")
          (insert_class [] true db (e.code.getD "") (e.text.getD "") p).1 e.bricks hself
        have hle := procBricks_dble ([] : Fault) (e.code.getD "")
          (insert_class [] true db (e.code.getD "") (e.text.getD "") p).1 e.bricks
        have hd : (procClass [] p db e).1 =
            (procBricks [] (e.code.getD "")
              (insert_class [] true db (e.code.getD "") (e.text.getD "") p).1 e.bricks).1 := by
          simp [procClass, hb, xmlForeignKeysEnabled]
        have hs : (procClass [] p db e).2.1 =
            Stats.inCls (outcomeStats
                (insert_class [] true db (e.code.getD "") (e.text.getD "") p).2) +
              (procBricks [] (e.code.getD "")
                (insert_class [] true db (e.code.getD "") (e.text.getD "") p).1 e.bricks).2.1 := by
          simp [procClass, hb, xmlForeignKeysEnabled]
        refine ⟨?_, ?_, Or.inr ⟨?_, ?_⟩⟩
        · rw [hs]
          exact balanced_add_stats (balanced_inCls (outcomeStats_balanced hout)) hcb
        · rw [hd]
          exact hle.famKey hp1
        · rw [hd]
          exact hle.clsKey hself
        · rw [hd]
          exact hcs
      · have hstep0 : procClass [] p db e = (db, Stats.inCls skipUnit, []) := by
          simp [procClass, hb]
        rw [hstep0]
        exact ⟨balanced_inCls skipUnit_balanced, hp, Or.inl rfl⟩
    obtain ⟨hb1, hp1, hk1⟩ := hstep
    obtain ⟨hb2, hs2⟩ := ih (procClass [] p db e).1 hp1
    simp only [procClasses]
    constructor
    · exact balanced_add_stats hb1 hb2
    · intro x hx
      rcases List.mem_cons.mp hx with hxe | hxe
      · subst hxe
        rcases hk1 with hbl | ⟨hkey, hsat⟩
        · exact Or.inl hbl
        · exact Or.inr ⟨(procClasses_dble ([] : Fault) p _ es).clsKey hkey,
            brSat_mono (procClasses_dble ([] : Fault) p _ es) hsat⟩
      · exact hs2 x hxe

theorem procClasses_noop (p : String) (db : DB) (l : List ClassElem)
    (h : clSat db l) :
    (procClasses [] p db l).1 = db ∧ (procClasses [] p db l).2.1.InsertedZero := by
  induction l with
  | nil => exact ⟨rfl, inserted_zero_zero⟩
  | cons e es ih =>
    have htail : clSat db es := fun x hx => h x (List.mem_cons_of_mem e hx)
    obtain ⟨hd, hz⟩ := ih htail
    cases hb : blank e.code || blank e.text
    · have hk : clsHasKey db (e.code.getD "") = true ∧ brSat db e.bricks := by
        rcases h e (List.mem_cons_self e es) with hbl | hkey
        · rw [hb] at hbl
          cases hbl
        · exact hkey
      have hins := insert_class_dup true db (e.code.getD "") (e.text.getD "") p hk.1
      obtain ⟨hcd, hcz⟩ := procBricks_noop (e.code.getD "") db e.bricks hk.2
      have hstep1 : (procClass [] p db e).1 = db := by
        simp [procClass, hb, xmlForeignKeysEnabled, hins, hcd]
      have hstep2 : (procClass [] p db e).2.1.InsertedZero := by
        have hq : (procClass [] p db e).2.1 =
            Stats.inCls (outcomeStats .ignored) +
              (procBricks [] (e.code.getD "") db e.bricks).2.1 := by
          simp [procClass, hb, xmlForeignKeysEnabled, hins]
        rw [hq]
        exact inserted_zero_add (inserted_zero_inCls outcomeStats_ignored_inserted) hcz
      simp only [procClasses]
      constructor
      · rw [hstep1]
        exact hd
      · rw [hstep1]
        exact inserted_zero_add hstep2 hz
    · have hstep0 : procClass [] p db e = (db, Stats.inCls skipUnit, []) := by
        simp [procClass, hb]
      simp only [procClasses, hstep0]
      exact ⟨by simpa using hd, inserted_zero_add (inserted_zero_inCls skipUnit_inserted) hz⟩


theorem procFamilies_ps (fault : Fault) (p : String) (db : DB)
    (l : List FamilyElem) :
    (procFamilies fault p db l).2.1.ps = specCountFMs l := by
  induction l generalizing db with
  | nil => simp [procFamilies, specCountFMs, Stats.ps_zero]
  | cons e es ih =>
    simp only [procFamilies]
    rw [stats_ps_add, ih]
    congr 1
    cases hb : blank e.code || blank e.text
    · simp [procFamily, hb, specCountFM, stats_ps_add, Stats.ps_inFams, outcomeStats_ps,
        procClasses_ps]
    · simp [procFamily, hb, specCountFM, Stats.ps_inFams, skipUnit_ps]

theorem procFamilies_events (fault : Fault) (p : String) (db : DB)
    (l : List FamilyElem) :
    (procFamilies fault p db l).2.2 = evFMs l := by
  induction l generalizing db with
  | nil => simp [procFamilies, evFMs]
  | cons e es ih =>
    simp only [procFamilies]
    cases hb : blank e.code || blank e.text <;>
      simp [procFamily, hb, evFMs, evFM, ih, procClasses_events]

theorem procFamilies_dble (fault : Fault) (p : String) (db : DB)
    (l : List FamilyElem) : DBLe db (procFamilies fault p db l).1 := by
  induction l generalizing db with
  | nil => exact DBLe.refl db
  | cons e es ih =>
    have h1 : DBLe db (procFamily fault p db e).1 := by
      unfold procFamily
      split
      · exact DBLe.refl db
      · exact DBLe.trans (insert_family_dble _ _ _ _ _ _) (procClasses_dble _ _ _ _)
    simp only [procFamilies]
    exact DBLe.trans h1 (ih _)

theorem procFamilies_refint (fault : Fault) (p : String) (db : DB)
    (l : List FamilyElem) (h : RefInt db) :
    RefInt (procFamilies fault p db l).1 := by
  induction l generalizing db with
  | nil => exact h
  | cons e es ih =>
    simp only [procFamilies]
    apply ih
    unfold procFamily
    split
    · exact h
    · exact procClasses_refint _ _ _ _ (insert_family_refint _ _ _ _ _ h)

theorem fmSat_mono {a b : DB} {l : List FamilyElem} (hle : DBLe a b)
    (h : fmSat a l) : fmSat b l := by
  intro e he
  rcases h e he with hb | ⟨hk, hv⟩
  · exact Or.inl hb
  · exact Or.inr ⟨hle.famKey hk, clSat_mono hle hv⟩

theorem procFamilies_nofault (p : String) (db : DB) (l : List FamilyElem)
    (hp : segHasKey db p = true) :
    (procFamilies [] p db l).2.1.Balanced ∧ fmSat (procFamilies [] p db l).1 l := by
  induction l generalizing db with
  | nil => exact ⟨balanced_zero_stats, fun e he => absurd he (List.not_mem_nil e)⟩
  | cons e es ih =>
    have hstep : (procFamily [] p db e).2.1.Balanced ∧
        segHasKey (procFamily [] p db e).1 p = true ∧
        ((blank e.code || blank e.text) = true ∨
          (famHasKey (procFamily [] p db e).1 (e.code.getD "") = true ∧
            clSat (procFamily [] p db e).1 e.classes)) := by
      cases hb : blank e.code || blank e.text
      · have hout := insert_family_outcome db (e.code.getD "") (e.text.getD "") p hp
        have hself := insert_family_self db (e.code.getD "") (e.text.getD "") p hp
        have hp1 : segHasKey (insert_family [] true db (e.code.getD "") (e.text.getD "") p).1
            p = true := hp
        obtain ⟨hcb, hcs⟩ := procClasses_nofault (e.code.getD "")
          (insert_family [] true db (e.code.getD "") (e.text.getD "") p).1 e.classes hself
        have hle := procClasses_dble ([] : Fault) (e.code.getD "")
          (insert_family [] true db (e.code.getD "") (e.text.getD "") p).1 e.classes
        have hd : (procFamily [] p db e).1 =
            (procClasses [] (e.code.getD "")
              (insert_family [] true db (e.code.getD "") (e.text.getD "") p).1 e.classes).1 := by
          simp [procFamily, hb, xmlForeignKeysEnabled]
        have hs : (procFamily [] p db e).2.1 =
            Stats.inFams (outcomeStats
                (insert_family [] true db (e.code.getD "") (e.text.getD "") p).2) +
              (procClasses [] (e.code.getD "")
                (insert_family [] true db (e.code.getD "") (e.text.getD "") p).1 e.classes).2.1 := by
          simp [procFamily, hb, xmlForeignKeysEnabled]
        refine ⟨?_, ?_, Or.inr ⟨?_, ?_⟩⟩
        · rw [hs]
          exact balanced_add_stats (balanced_inFams (outcomeStats_balanced hout)) hcb
        · rw [hd]
          exact hle.segKey hp1
        · rw [hd]
          exact hle.famKey hself
        · rw [hd]
          exact hcs
      · have hstep0 : procFamily [] p db e = (db, Stats.inFams skipUnit, []) := by
          simp [procFamily, hb]
        rw [hstep0]
        exact ⟨balanced_inFams skipUnit_balanced, hp, Or.inl rfl⟩
    obtain ⟨hb1, hp1, hk1⟩ := hstep
    obtain ⟨hb2, hs2⟩ := ih (procFamily [] p db e).1 hp1
    simp only [procFamilies]
    constructor
    · exact balanced_add_stats hb1 hb2
    · intro x hx
      rcases List.mem_cons.mp hx with hxe | hxe
      · subst hxe
        rcases hk1 with hbl | ⟨hkey, hsat⟩
        · exact Or.inl hbl
        · exact Or.inr ⟨(procFamilies_dble ([] : Fault) p _ es).famKey hkey,
            clSat_mono (procFamilies_dble ([] : Fault) p _ es) hsat⟩
      · exact hs2 x hxe

theorem procFamilies_noop (p : String) (db : DB) (l : List FamilyElem)
    (h : fmSat db l) :
    (procFamilies [] p db l).1 = db ∧ (procFamilies [] p db l).2.1.InsertedZero := by
  induction l with
  | nil => exact ⟨rfl, inserted_zero_zero⟩
  | cons e es ih =>
    have htail : fmSat db es := fun x hx => h x (List.mem_cons_of_mem e hx)
    obtain ⟨hd, hz⟩ := ih htail
    cases hb : blank e.code || blank e.text
    · have hk : famHasKey db (e.code.getD "") = true ∧ clSat db e.classes := by
        rcases h e (List.mem_cons_self e es) with hbl | hkey
        · rw [hb] at hbl
          cases hbl
        · exact hkey
      have hins := insert_family_dup true db (e.code.getD "") (e.text.getD "") p hk.1
      obtain ⟨hcd, hcz⟩ := procClasses_noop (e.code.getD "") db e.classes hk.2
      have hstep1 : (procFamily [] p db e).1 = db := by
        simp [procFamily, hb, xmlForeignKeysEnabled, hins, hcd]
      have hstep2 : (procFamily [] p db e).2.1.InsertedZero := by
        have hq : (procFamily [] p db e).2.1 =
            Stats.inFams (outcomeStats .ignored) +
              (procClasses [] (e.code.getD "") db e.classes).2.1 := by
          simp [procFamily, hb, xmlForeignKeysEnabled, hins]
        rw [hq]
        exact inserted_zero_add (inserted_zero_inFams outcomeStats_ignored_inserted) hcz
      simp only [procFamilies]
      constructor
      · rw [hstep1]
        exact hd
      · rw [hstep1]
        exact inserted_zero_add hstep2 hz
    · have hstep0 : procFamily [] p db e = (db, Stats.inFams skipUnit, []) := by
        simp [procFamily, hb]
      simp only [procFamilies, hstep0]
      exact ⟨by simpa using hd, inserted_zero_add (inserted_zero_inFams skipUnit_inserted) hz⟩


theorem procSegments_ps (fault : Fault) (db : DB) (l : List SegmentElem) :
    (procSegments fault db l).2.1.ps = specCountSGs l := by
  induction l generalizing db with
  | nil => simp [procSegments, specCountSGs, Stats.ps_zero]
  | cons e es ih =>
    simp only [procSegments]
    rw [stats_ps_add, ih]
    congr 1
    cases hb : blank e.code || blank e.text
    · simp [procSegment, hb, specCountSG, stats_ps_add, Stats.ps_inSegs,
        outcomeStats_ps, procFamilies_ps]
    · simp [procSegment, hb, specCountSG, Stats.ps_inSegs, skipUnit_ps]

theorem procSegments_events (fault : Fault) (db : DB) (l : List SegmentElem) :
    (procSegments fault db l).2.2 = evSGs l := by
  induction l generalizing db with
  | nil => simp [procSegments, evSGs]
  | cons e es ih =>
    simp only [procSegments]
    cases hb : blank e.code || blank e.text <;>
      simp [procSegment, hb, evSGs, evSG, ih, procFamilies_events]

theorem procSegments_dble (fault : Fault) (db : DB) (l : List SegmentElem) :
    DBLe db (procSegments fault db l).1 := by
  induction l generalizing db with
  | nil => exact DBLe.refl db
  | cons e es ih =>
    have h1 : DBLe db (procSegment fault db e).1 := by
      unfold procSegment
      split
      · exact DBLe.refl db
      · exact DBLe.trans (insert_segment_dble _ _ _ _) (procFamilies_dble _ _ _ _)
    simp only [procSegments]
    exact DBLe.trans h1 (ih _)

theorem procSegments_refint (fault : Fault) (db : DB) (l : List SegmentElem)
    (h : RefInt db) : RefInt (procSegments fault db l).1 := by
  induction l generalizing db with
  | nil => exact h
  | cons e es ih =>
    simp only [procSegments]
    apply ih
    unfold procSegment
    split
    · exact h
    · exact procFamilies_refint _ _ _ _ (insert_segment_refint _ _ _ _ h)

theorem sgSat_mono {a b : DB} {l : List SegmentElem} (hle : DBLe a b)
    (h : sgSat a l) : sgSat b l := by
  intro e he
  rcases h e he with hb | ⟨hk, hv⟩
  · exact Or.inl hb
  · exact Or.inr ⟨hle.segKey hk, fmSat_mono hle hv⟩

theorem procSegments_nofault (db : DB) (l : List SegmentElem) :
    (procSegments [] db l).2.1.Balanced ∧ sgSat (procSegments [] db l).1 l := by
  induction l generalizing db with
  | nil => exact ⟨balanced_zero_stats, fun e he => absurd he (List.not_mem_nil e)⟩
  | cons e es ih =>
    have hstep : (procSegment [] db e).2.1.Balanced ∧
        ((blank e.code || blank e.text) = true ∨
          (segHasKey (procSegment [] db e).1 (e.code.getD "") = true ∧
            fmSat (procSegment [] db e).1 e.families)) := by
      cases hb : blank e.code || blank e.text
      · have hout := insert_segment_outcome db (e.code.getD "") (e.text.getD "")
        have hself := insert_segment_self db (e.code.getD "") (e.text.getD "")
        obtain ⟨hcb, hcs⟩ := procFamilies_nofault (e.code.getD "")
          (insert_segment [] db (e.code.getD "") (e.text.getD "")).1 e.families hself
        have hle := procFamilies_dble ([] : Fault) (e.code.getD "")
          (insert_segment [] db (e.code.getD "") (e.text.getD "")).1 e.families
        have hd : (procSegment [] db e).1 =
            (procFamilies [] (e.code.getD "")
              (insert_segment [] db (e.code.getD "") (e.text.getD "")).1 e.families).1 := by
          simp [procSegment, hb]
        have hs : (procSegment [] db e).2.1 =
            Stats.inSegs (outcomeStats
                (insert_segment [] db (e.code.getD "") (e.text.getD "")).2) +
              (procFamilies [] (e.code.getD "")
                (insert_segment [] db (e.code.getD "") (e.text.getD "")).1 e.families).2.1 := by
          simp [procSegment, hb]
        refine ⟨?_, Or.inr ⟨?_, ?_⟩⟩
        · rw [hs]
          exact balanced_add_stats (balanced_inSegs (outcomeStats_balanced hout)) hcb
        · rw [hd]
          exact hle.segKey hself
        · rw [hd]
          exact hcs
      · have hstep0 : procSegment [] db e = (db, Stats.inSegs skipUnit, []) := by
          simp [procSegment, hb]
        rw [hstep0]
        exact ⟨balanced_inSegs skipUnit_balanced, Or.inl rfl⟩
    obtain ⟨hb1, hk1⟩ := hstep
    obtain ⟨hb2, hs2⟩ := ih (procSegment [] db e).1
    simp only [procSegments]
    constructor
    · exact balanced_add_stats hb1 hb2
    · intro x hx
      rcases List.mem_cons.mp hx with hxe | hxe
      · subst hxe
        rcases hk1 with hbl | ⟨hkey, hsat⟩
        · exact Or.inl hbl
        · exact Or.inr ⟨(procSegments_dble ([] : Fault) _ es).segKey hkey,
            fmSat_mono (procSegments_dble ([] : Fault) _ es) hsat⟩
      · exact hs2 x hxe

theorem procSegments_noop (db : DB) (l : List SegmentElem) (h : sgSat db l) :
    (procSegments [] db l).1 = db ∧ (procSegments [] db l).2.1.InsertedZero := by
  induction l with
  | nil => exact ⟨rfl, inserted_zero_zero⟩
  | cons e es ih =>
    have htail : sgSat db es := fun x hx => h x (List.mem_cons_of_mem e hx)
    obtain ⟨hd, hz⟩ := ih htail
    cases hb : blank e.code || blank e.text
    · have hk : segHasKey db (e.code.getD "") = true ∧ fmSat db e.families := by
        rcases h e (List.mem_cons_self e es) with hbl | hkey
        · rw [hb] at hbl
          cases hbl
        · exact hkey
      have hins := insert_segment_dup db (e.code.getD "") (e.text.getD "") hk.1
      obtain ⟨hcd, hcz⟩ := procFamilies_noop (e.code.getD "") db e.families hk.2
      have hstep1 : (procSegment [] db e).1 = db := by
        simp [procSegment, hb, hins, hcd]
      have hstep2 : (procSegment [] db e).2.1.InsertedZero := by
        have hq : (procSegment [] db e).2.1 =
            Stats.inSegs (outcomeStats .ignored) +
              (procFamilies [] (e.code.getD "") db e.families).2.1 := by
          simp [procSegment, hb, hins]
        rw [hq]
        exact inserted_zero_add (inserted_zero_inSegs outcomeStats_ignored_inserted) hcz
      simp only [procSegments]
      constructor
      · rw [hstep1]
        exact hd
      · rw [hstep1]
        exact inserted_zero_add hstep2 hz
    · have hstep0 : procSegment [] db e = (db, Stats.inSegs skipUnit, []) := by
        simp [procSegment, hb]
      simp only [procSegments, hstep0]
      exact ⟨by simpa using hd, inserted_zero_add (inserted_zero_inSegs skipUnit_inserted) hz⟩


theorem Stats.add_left_comm (a b c : Stats) : a + (b + c) = b + (a + c) := by
  rw [← stats_add_assoc, stats_add_comm a b, stats_add_assoc]


theorem procAttValues_skip (fault : Fault) (p : String) (db : DB)
    (pre post : List AttValueElem) (bad : AttValueElem)
    (hbad : (blank bad.code || blank bad.text) = true) :
    procAttValues fault p db (pre ++ bad :: post) =
      ((procAttValues fault p db (pre ++ post)).1,
        Stats.inAvs skipUnit + (procAttValues fault p db (pre ++ post)).2.1,
        (procAttValues fault p db (pre ++ post)).2.2) := by
  induction pre generalizing db with
  | nil =>
    have hstep : procAttValue fault p db bad = (db, Stats.inAvs skipUnit, []) := by
      simp [procAttValue, hbad]
    simp only [List.nil_append, procAttValues, hstep]
  | cons x xs ih =>
    simp only [List.cons_append, List.append_eq, procAttValues]
    rw [ih]
    simp only [Prod.mk.injEq]
    exact ⟨trivial, Stats.add_left_comm _ _ _, trivial⟩


theorem procAttTypes_skip (fault : Fault) (p : String) (db : DB)
    (pre post : List AttTypeElem) (bad : AttTypeElem)
    (hbad : (blank bad.code || blank bad.text) = true) :
    procAttTypes fault p db (pre ++ bad :: post) =
      ((procAttTypes fault p db (pre ++ post)).1,
        Stats.inAts skipUnit + (procAttTypes fault p db (pre ++ post)).2.1,
        (procAttTypes fault p db (pre ++ post)).2.2) := by
  induction pre generalizing db with
  | nil =>
    have hstep : procAttType fault p db bad = (db, Stats.inAts skipUnit, []) := by
      simp [procAttType, hbad]
    simp only [List.nil_append, procAttTypes, hstep]
  | cons x xs ih =>
    simp only [List.cons_append, List.append_eq, procAttTypes]
    rw [ih]
    simp only [Prod.mk.injEq]
    exact ⟨trivial, Stats.add_left_comm _ _ _, trivial⟩


theorem procBricks_skip (fault : Fault) (p : String) (db : DB)
    (pre post : List BrickElem) (bad : BrickElem)
    (hbad : (blank bad.code || blank bad.text) = true) :
    procBricks fault p db (pre ++ bad :: post) =
      ((procBricks fault p db (pre ++ post)).1,
        Stats.inBrs skipUnit + (procBricks fault p db (pre ++ post)).2.1,
        (procBricks fault p db (pre ++ post)).2.2) := by
  induction pre generalizing db with
  | nil =>
    have hstep : procBrick fault p db bad = (db, Stats.inBrs skipUnit, []) := by
      simp [procBrick, hbad]
    simp only [List.nil_append, procBricks, hstep]
  | cons x xs ih =>
    simp only [List.cons_append, List.append_eq, procBricks]
    rw [ih]
    simp only [Prod.mk.injEq]
    exact ⟨trivial, Stats.add_left_comm _ _ _, trivial⟩


theorem procClasses_skip (fault : Fault) (p : String) (db : DB)
    (pre post : List ClassElem) (bad : ClassElem)
    (hbad : (blank bad.code || blank bad.text) = true) :
    procClasses fault p db (pre ++ bad :: post) =
      ((procClasses fault p db (pre ++ post)).1,
        Stats.inCls skipUnit + (procClasses fault p db (pre ++ post)).2.1,
        (procClasses fault p db (pre ++ post)).2.2) := by
  induction pre generalizing db with
  | nil =>
    have hstep : procClass fault p db bad = (db, Stats.inCls skipUnit, []) := by
      simp [procClass, hbad]
    simp only [List.nil_append, procClasses, hstep]
  | cons x xs ih =>
    simp only [List.cons_append, List.append_eq, procClasses]
    rw [ih]
    simp only [Prod.mk.injEq]
    exact ⟨trivial, Stats.add_left_comm _ _ _, trivial⟩


theorem procFamilies_skip (fault : Fault) (p : String) (db : DB)
    (pre post : List FamilyElem) (bad : FamilyElem)
    (hbad : (blank bad.code || blank bad.text) = true) :
    procFamilies fault p db (pre ++ bad :: post) =
      ((procFamilies fault p db (pre ++ post)).1,
        Stats.inFams skipUnit + (procFamilies fault p db (pre ++ post)).2.1,
        (procFamilies fault p db (pre ++ post)).2.2) := by
  induction pre generalizing db with
  | nil =>
    have hstep : procFamily fault p db bad = (db, Stats.inFams skipUnit, []) := by
      simp [procFamily, hbad]
    simp only [List.nil_append, procFamilies, hstep]
  | cons x xs ih =>
    simp only [List.cons_append, List.append_eq, procFamilies]
    rw [ih]
    simp only [Prod.mk.injEq]
    exact ⟨trivial, Stats.add_left_comm _ _ _, trivial⟩


theorem procSegments_skip (fault : Fault) (db : DB)
    (pre post : List SegmentElem) (bad : SegmentElem)
    (hbad : (blank bad.code || blank bad.text) = true) :
    procSegments fault db (pre ++ bad :: post) =
      ((procSegments fault db (pre ++ post)).1,
        Stats.inSegs skipUnit + (procSegments fault db (pre ++ post)).2.1,
        (procSegments fault db (pre ++ post)).2.2) := by
  induction pre generalizing db with
  | nil =>
    have hstep : procSegment fault db bad = (db, Stats.inSegs skipUnit, []) := by
      simp [procSegment, hbad]
    simp only [List.nil_append, procSegments, hstep]
  | cons x xs ih =>
    simp only [List.cons_append, List.append_eq, procSegments]
    rw [ih]
    simp only [Prod.mk.injEq]
    exact ⟨trivial, Stats.add_left_comm _ _ _, trivial⟩


theorem not_mem_of_insert_only {l : List Event}
    (h : ∀ e ∈ l, isInsertEvent e = true) {x : Event}
    (hx : isInsertEvent x = false) : x ∉ l := by
  intro hm
  rw [h x hm] at hx
  cases hx

theorem evAVs_insert (l : List AttValueElem) :
    ∀ e ∈ evAVs l, isInsertEvent e = true := by
  induction l with
  | nil =>
    intro e he
    exact absurd he (List.not_mem_nil e)
  | cons x xs ih =>
    intro e he
    rcases List.mem_append.mp (by simpa [evAVs] using he) with h | h
    · revert h
      unfold evAV
      split
      · intro h
        exact absurd h (List.not_mem_nil e)
      · intro h
        have hx : e = Event.insertAttempt .atv (x.code.getD "") := by simpa using h
        subst hx
        rfl
    · exact ih e h


theorem evATs_insert (l : List AttTypeElem) :
    ∀ e ∈ evATs l, isInsertEvent e = true := by
  induction l with
  | nil =>
    intro e he
    exact absurd he (List.not_mem_nil e)
  | cons x xs ih =>
    intro e he
    rcases List.mem_append.mp (by simpa [evATs] using he) with h | h
    · revert h
      unfold evAT
      split
      · intro h
        exact absurd h (List.not_mem_nil e)
      · intro h
        rcases List.mem_cons.mp h with hx | hx
        · subst hx
          rfl
        · exact evAVs_insert _ e hx
    · exact ih e h


theorem evBRs_insert (l : List BrickElem) :
    ∀ e ∈ evBRs l, isInsertEvent e = true := by
  induction l with
  | nil =>
    intro e he
    exact absurd he (List.not_mem_nil e)
  | cons x xs ih =>
    intro e he
    rcases List.mem_append.mp (by simpa [evBRs] using he) with h | h
    · revert h
      unfold evBR
      split
      · intro h
        exact absurd h (List.not_mem_nil e)
      · intro h
        rcases List.mem_cons.mp h with hx | hx
        · subst hx
          rfl
        · exact evATs_insert _ e hx
    · exact ih e h


theorem evCLs_insert (l : List ClassElem) :
    ∀ e ∈ evCLs l, isInsertEvent e = true := by
  induction l with
  | nil =>
    intro e he
    exact absurd he (List.not_mem_nil e)
  | cons x xs ih =>
    intro e he
    rcases List.mem_append.mp (by simpa [evCLs] using he) with h | h
    · revert h
      unfold evCL
      split
      · intro h
        exact absurd h (List.not_mem_nil e)
      · intro h
        rcases List.mem_cons.mp h with hx | hx
        · subst hx
          rfl
        · exact evBRs_insert _ e hx
    · exact ih e h


theorem evFMs_insert (l : List FamilyElem) :
    ∀ e ∈ evFMs l, isInsertEvent e = true := by
  induction l with
  | nil =>
    intro e he
    exact absurd he (List.not_mem_nil e)
  | cons x xs ih =>
    intro e he
    rcases List.mem_append.mp (by simpa [evFMs] using he) with h | h
    · revert h
      unfold evFM
      split
      · intro h
        exact absurd h (List.not_mem_nil e)
      · intro h
        rcases List.mem_cons.mp h with hx | hx
        · subst hx
          rfl
        · exact evCLs_insert _ e hx
    · exact ih e h


theorem evSGs_insert (l : List SegmentElem) :
    ∀ e ∈ evSGs l, isInsertEvent e = true := by
  induction l with
  | nil =>
    intro e he
    exact absurd he (List.not_mem_nil e)
  | cons x xs ih =>
    intro e he
    rcases List.mem_append.mp (by simpa [evSGs] using he) with h | h
    · revert h
      unfold evSG
      split
      · intro h
        exact absurd h (List.not_mem_nil e)
      · intro h
        rcases List.mem_cons.mp h with hx | hx
        · subst hx
          rfl
        · exact evFMs_insert _ e hx
    · exact ih e h


theorem segStepJ_ev (db : DB) (x : JSegment) :
    (segStepJ db x).2.1 = [] ∨
      ∃ c, (segStepJ db x).2.1 = [Event.insertAttempt .seg c] := by
  unfold segStepJ
  repeat' split
  all_goals first
    | exact Or.inl rfl
    | exact Or.inr ⟨_, rfl⟩

theorem segLoopJ_insert (db : DB) (l : List JSegment) :
    ∀ e ∈ (segLoopJ db l).2.1, isInsertEvent e = true := by
  induction l generalizing db with
  | nil =>
    intro e he
    exact absurd he (List.not_mem_nil e)
  | cons x xs ih =>
    intro e he
    revert he
    simp only [segLoopJ]
    have hstep : ∀ e ∈ (segStepJ db x).2.1, isInsertEvent e = true := by
      intro e he
      rcases segStepJ_ev db x with h0 | ⟨c, h0⟩ <;> rw [h0] at he
      · exact absurd he (List.not_mem_nil e)
      · have hx : e = Event.insertAttempt .seg c := by simpa using he
        subst hx
        rfl
    split
    · intro he
      exact hstep e he
    · intro he
      rcases List.mem_append.mp he with h | h
      · exact hstep e h
      · exact ih _ e h

theorem segSectionJ_insert (db : DB) (o : Option (List JSegment)) :
    ∀ e ∈ (segSectionJ db o).2.1, isInsertEvent e = true := by
  cases o with
  | none =>
    intro e he
    exact absurd he (List.not_mem_nil e)
  | some l => exact segLoopJ_insert db l


theorem famStepJ_ev (filt : Option String) (db : DB) (x : JFamily) :
    (famStepJ filt db x).2.1 = [] ∨
      ∃ c, (famStepJ filt db x).2.1 = [Event.insertAttempt .fam c] := by
  unfold famStepJ
  repeat' split
  all_goals first
    | exact Or.inl rfl
    | exact Or.inr ⟨_, rfl⟩

theorem famLoopJ_insert (filt : Option String) (db : DB) (l : List JFamily) :
    ∀ e ∈ (famLoopJ filt db l).2.1, isInsertEvent e = true := by
  induction l generalizing db with
  | nil =>
    intro e he
    exact absurd he (List.not_mem_nil e)
  | cons x xs ih =>
    intro e he
    revert he
    simp only [famLoopJ]
    have hstep : ∀ e ∈ (famStepJ filt db x).2.1, isInsertEvent e = true := by
      intro e he
      rcases famStepJ_ev filt db x with h0 | ⟨c, h0⟩ <;> rw [h0] at he
      · exact absurd he (List.not_mem_nil e)
      · have hx : e = Event.insertAttempt .fam c := by simpa using he
        subst hx
        rfl
    split
    · intro he
      exact hstep e he
    · intro he
      rcases List.mem_append.mp he with h | h
      · exact hstep e h
      · exact ih _ e h

theorem famSectionJ_insert (filt : Option String) (db : DB) (o : Option (List JFamily)) :
    ∀ e ∈ (famSectionJ filt db o).2.1, isInsertEvent e = true := by
  cases o with
  | none =>
    intro e he
    exact absurd he (List.not_mem_nil e)
  | some l => exact famLoopJ_insert filt db l


theorem classStepJ_ev (filt : Option String) (db : DB) (x : JClass) :
    (classStepJ filt db x).2.1 = [] ∨
      ∃ c, (classStepJ filt db x).2.1 = [Event.insertAttempt .cls c] := by
  unfold classStepJ
  repeat' split
  all_goals first
    | exact Or.inl rfl
    | exact Or.inr ⟨_, rfl⟩

theorem classLoopJ_insert (filt : Option String) (db : DB) (l : List JClass) :
    ∀ e ∈ (classLoopJ filt db l).2.1, isInsertEvent e = true := by
  induction l generalizing db with
  | nil =>
    intro e he
    exact absurd he (List.not_mem_nil e)
  | cons x xs ih =>
    intro e he
    revert he
    simp only [classLoopJ]
    have hstep : ∀ e ∈ (classStepJ filt db x).2.1, isInsertEvent e = true := by
      intro e he
      rcases classStepJ_ev filt db x with h0 | ⟨c, h0⟩ <;> rw [h0] at he
      · exact absurd he (List.not_mem_nil e)
      · have hx : e = Event.insertAttempt .cls c := by simpa using he
        subst hx
        rfl
    split
    · intro he
      exact hstep e he
    · intro he
      rcases List.mem_append.mp he with h | h
      · exact hstep e h
      · exact ih _ e h

theorem classSectionJ_insert (filt : Option String) (db : DB) (o : Option (List JClass)) :
    ∀ e ∈ (classSectionJ filt db o).2.1, isInsertEvent e = true := by
  cases o with
  | none =>
    intro e he
    exact absurd he (List.not_mem_nil e)
  | some l => exact classLoopJ_insert filt db l


theorem brickStepJ_ev (filt : Option String) (db : DB) (x : JBrick) :
    (brickStepJ filt db x).2.1 = [] ∨
      ∃ c, (brickStepJ filt db x).2.1 = [Event.insertAttempt .brk c] := by
  unfold brickStepJ
  repeat' split
  all_goals first
    | exact Or.inl rfl
    | exact Or.inr ⟨_, rfl⟩

theorem brickLoopJ_insert (filt : Option String) (db : DB) (l : List JBrick) :
    ∀ e ∈ (brickLoopJ filt db l).2.1, isInsertEvent e = true := by
  induction l generalizing db with
  | nil =>
    intro e he
    exact absurd he (List.not_mem_nil e)
  | cons x xs ih =>
    intro e he
    revert he
    simp only [brickLoopJ]
    have hstep : ∀ e ∈ (brickStepJ filt db x).2.1, isInsertEvent e = true := by
      intro e he
      rcases brickStepJ_ev filt db x with h0 | ⟨c, h0⟩ <;> rw [h0] at he
      · exact absurd he (List.not_mem_nil e)
      · have hx : e = Event.insertAttempt .brk c := by simpa using he
        subst hx
        rfl
    split
    · intro he
      exact hstep e he
    · intro he
      rcases List.mem_append.mp he with h | h
      · exact hstep e h
      · exact ih _ e h

theorem brickSectionJ_insert (filt : Option String) (db : DB) (o : Option (List JBrick)) :
    ∀ e ∈ (brickSectionJ filt db o).2.1, isInsertEvent e = true := by
  cases o with
  | none =>
    intro e he
    exact absurd he (List.not_mem_nil e)
  | some l => exact brickLoopJ_insert filt db l

/-- Restriction of the store to one segment subtree: every family row
hangs off segment `s`, every class row hangs off such a family, every
brick row hangs off such a class. -/
def FilteredTo (s : String) (db : DB) : Prop :=
  (∀ r ∈ db.families, r.parent = s) ∧
  (∀ r ∈ db.classes, ∃ f ∈ db.families, f.code = r.parent ∧ f.parent = s) ∧
  (∀ r ∈ db.bricks, ∃ c ∈ db.classes, c.code = r.parent ∧
    ∃ f ∈ db.families, f.code = c.parent ∧ f.parent = s)

theorem FilteredTo_empty (s : String) : FilteredTo s emptyDB :=
  ⟨fun _ hr => absurd hr (List.not_mem_nil _),
    fun _ hr => absurd hr (List.not_mem_nil _),
    fun _ hr => absurd hr (List.not_mem_nil _)⟩

theorem segStepJ_filtered {s : String} {db : DB} {x : JSegment}
    (h : FilteredTo s db) : FilteredTo s (segStepJ db x).1 := by
  unfold segStepJ
  repeat' split
  all_goals exact h

theorem famStepJ_filtered {s : String} {db : DB} {f : JFamily}
    (h : FilteredTo s db) : FilteredTo s (famStepJ (some s) db f).1 := by
  unfold famStepJ
  simp only []
  cases hsc : f.segmentCode with
  | none => exact h
  | some sc =>
    simp only []
    by_cases heq : sc = s
    · rw [if_pos heq]
      cases hfc : f.familyCode with
      | none => exact h
      | some fc =>
        cases hfd : f.familyDescription with
        | none => exact h
        | some fd =>
          obtain ⟨h1, h2, h3⟩ := h
          refine ⟨?_, ?_, ?_⟩
          · intro r hr
            rcases rowInsert_fst_mem hr with hm | hm
            · exact h1 r hm
            · subst hm
              exact heq
          · intro r hr
            obtain ⟨fr, hfr, hc2, hp⟩ := h2 r hr
            exact ⟨fr, rowInsert_mem _ _ hfr, hc2, hp⟩
          · intro r hr
            obtain ⟨cr, hcr, hcc, fr, hfr, hfc2, hfp⟩ := h3 r hr
            exact ⟨cr, hcr, hcc, fr, rowInsert_mem _ _ hfr, hfc2, hfp⟩
    · rw [if_neg heq]
      exact h

theorem classStepJ_filtered {s : String} {db : DB} {c : JClass}
    (h : FilteredTo s db) : FilteredTo s (classStepJ (some s) db c).1 := by
  unfold classStepJ
  cases hfc : c.familyCode with
  | none => exact h
  | some fc =>
    simp only []
    cases hfind : db.families.find? (fun r => r.code = fc) with
    | none => exact h
    | some frow =>
      simp only []
      by_cases hcond : ((some s : Option String) = none ∨
        (some s : Option String) = some frow.parent)
      · rw [if_pos hcond]
        cases hcc : c.classCode with
        | none => exact h
        | some cc =>
          simp only []
          cases hcd : c.classDescription with
          | none => exact h
          | some cd =>
            simp only []
            have hparent : frow.parent = s := by
              rcases hcond with hc0 | hc1
              · cases hc0
              · injection hc1 with h'
                exact h'.symm
            have hfrow_mem : frow ∈ db.families := List.mem_of_find?_eq_some hfind
            have hfrow_code : frow.code = fc := by
              have hp := List.find?_some hfind
              simpa using hp
            obtain ⟨h1, h2, h3⟩ := h
            refine ⟨h1, ?_, ?_⟩
            · intro r hr
              rcases rowInsert_fst_mem hr with hm | hm
              · exact h2 r hm
              · subst hm
                exact ⟨frow, hfrow_mem, hfrow_code, hparent⟩
            · intro r hr
              obtain ⟨cr, hcr, hcc2, fr, hfr, hfc2, hfp⟩ := h3 r hr
              exact ⟨cr, rowInsert_mem _ _ hcr, hcc2, fr, hfr, hfc2, hfp⟩
      · rw [if_neg hcond]
        exact h

theorem brickStepJ_filtered {s : String} {db : DB} {b : JBrick}
    (h : FilteredTo s db) : FilteredTo s (brickStepJ (some s) db b).1 := by
  unfold brickStepJ
  cases hcc : b.classCode with
  | none => exact h
  | some cc =>
    simp only []
    cases hfindc : db.classes.find? (fun r => r.code = cc) with
    | none => exact h
    | some crow =>
      simp only []
      cases hfindf : db.families.find? (fun r => r.code = crow.parent) with
      | none => exact h
      | some frow =>
        simp only []
        by_cases hcond : ((some s : Option String) = none ∨
          (some s : Option String) = some frow.parent)
        · rw [if_pos hcond]
          cases hbc : b.brickCode with
          | none => exact h
          | some bc =>
            simp only []
            cases hbd : b.brickDescription with
            | none => exact h
            | some bd =>
              simp only []
              have hparent : frow.parent = s := by
                rcases hcond with hc0 | hc1
                · cases hc0
                · injection hc1 with h'
                  exact h'.symm
              have hcrow_mem : crow ∈ db.classes := List.mem_of_find?_eq_some hfindc
              have hcrow_code : crow.code = cc := by
                have hp := List.find?_some hfindc
                simpa using hp
              have hfrow_mem : frow ∈ db.families := List.mem_of_find?_eq_some hfindf
              have hfrow_code : frow.code = crow.parent := by
                have hp := List.find?_some hfindf
                simpa using hp
              obtain ⟨h1, h2, h3⟩ := h
              refine ⟨h1, h2, ?_⟩
              intro r hr
              rcases rowInsert_fst_mem hr with hm | hm
              · exact h3 r hm
              · subst hm
                exact ⟨crow, hcrow_mem, hcrow_code, frow, hfrow_mem, hfrow_code, hparent⟩
        · rw [if_neg hcond]
          exact h

theorem segLoopJ_filtered {s : String} (db : DB) (l : List JSegment)
    (h : FilteredTo s db) : FilteredTo s (segLoopJ db l).1 := by
  induction l generalizing db with
  | nil => exact h
  | cons x xs ih =>
    simp only [segLoopJ]
    rcases hx : (segStepJ db x).2.2 with _ | k
    · exact ih _ (segStepJ_filtered h)
    · exact segStepJ_filtered h

theorem famLoopJ_filtered {s : String} (db : DB) (l : List JFamily)
    (h : FilteredTo s db) : FilteredTo s (famLoopJ (some s) db l).1 := by
  induction l generalizing db with
  | nil => exact h
  | cons x xs ih =>
    simp only [famLoopJ]
    rcases hx : (famStepJ (some s) db x).2.2 with _ | k
    · exact ih _ (famStepJ_filtered h)
    · exact famStepJ_filtered h

theorem classLoopJ_filtered {s : String} (db : DB) (l : List JClass)
    (h : FilteredTo s db) : FilteredTo s (classLoopJ (some s) db l).1 := by
  induction l generalizing db with
  | nil => exact h
  | cons x xs ih =>
    simp only [classLoopJ]
    rcases hx : (classStepJ (some s) db x).2.2 with _ | k
    · exact ih _ (classStepJ_filtered h)
    · exact classStepJ_filtered h

theorem brickLoopJ_filtered {s : String} (db : DB) (l : List JBrick)
    (h : FilteredTo s db) : FilteredTo s (brickLoopJ (some s) db l).1 := by
  induction l generalizing db with
  | nil => exact h
  | cons x xs ih =>
    simp only [brickLoopJ]
    rcases hx : (brickStepJ (some s) db x).2.2 with _ | k
    · exact ih _ (brickStepJ_filtered h)
    · exact brickStepJ_filtered h

theorem segSectionJ_filtered {s : String} (db : DB) (o : Option (List JSegment))
    (h : FilteredTo s db) : FilteredTo s (segSectionJ db o).1 := by
  cases o with
  | none => exact h
  | some l => exact segLoopJ_filtered db l h

theorem famSectionJ_filtered {s : String} (db : DB) (o : Option (List JFamily))
    (h : FilteredTo s db) : FilteredTo s (famSectionJ (some s) db o).1 := by
  cases o with
  | none => exact h
  | some l => exact famLoopJ_filtered db l h

theorem classSectionJ_filtered {s : String} (db : DB) (o : Option (List JClass))
    (h : FilteredTo s db) : FilteredTo s (classSectionJ (some s) db o).1 := by
  cases o with
  | none => exact h
  | some l => exact classLoopJ_filtered db l h

theorem brickSectionJ_filtered {s : String} (db : DB) (o : Option (List JBrick))
    (h : FilteredTo s db) : FilteredTo s (brickSectionJ (some s) db o).1 := by
  cases o with
  | none => exact h
  | some l => exact brickLoopJ_filtered db l h

theorem famStepJ_err (filt : Option String) (db : DB) (f : JFamily) :
    (famStepJ filt db f).2.2 = famErr filt f := by
  unfold famStepJ famErr
  repeat' split
  all_goals rfl

theorem famLoopJ_trunc (filt : Option String) (db : DB)
    (pre post : List JFamily) (bad : JFamily) (hbad : famErr filt bad ≠ none) :
    famLoopJ filt db (pre ++ bad :: post) = famLoopJ filt db (pre ++ [bad]) := by
  induction pre generalizing db with
  | nil =>
    simp only [List.nil_append, famLoopJ]
    rcases hx : (famStepJ filt db bad).2.2 with _ | k
    · rw [famStepJ_err] at hx
      exact absurd hx hbad
    · rfl
  | cons x xs ih =>
    simp only [List.cons_append, List.append_eq, famLoopJ]
    rcases hx : (famStepJ filt db x).2.2 with _ | k
    · rw [ih]
    · rfl

theorem famLoopJ_end_err (filt : Option String) (db : DB)
    (pre : List JFamily) (bad : JFamily) (hbad : famErr filt bad ≠ none) :
    (famLoopJ filt db (pre ++ [bad])).2.2 ≠ none := by
  induction pre generalizing db with
  | nil =>
    simp only [List.nil_append, famLoopJ]
    rcases hx : (famStepJ filt db bad).2.2 with _ | k
    · rw [famStepJ_err] at hx
      exact absurd hx hbad
    · simp
  | cons x xs ih =>
    simp only [List.cons_append, List.append_eq, famLoopJ]
    rcases hx : (famStepJ filt db x).2.2 with _ | k
    · simpa using ih _
    · simp

theorem seqJ_err {a : DB × List Event × Option String}
    (f : DB → DB × List Event × Option String) {k : String}
    (h : a.2.2 = some k) : seqJ a f = (a.1, a.2.1, some k) := by
  unfold seqJ
  rw [h]

theorem seqJ_filtered {s : String} {a : DB × List Event × Option String}
    {f : DB → DB × List Event × Option String} (ha : FilteredTo s a.1)
    (hf : ∀ d, FilteredTo s d → FilteredTo s (f d).1) :
    FilteredTo s (seqJ a f).1 := by
  unfold seqJ
  cases h : a.2.2 with
  | some k => exact ha
  | none => exact hf _ ha

theorem seqJ_insert {a : DB × List Event × Option String}
    {f : DB → DB × List Event × Option String}
    (ha : ∀ e ∈ a.2.1, isInsertEvent e = true)
    (hf : ∀ d, ∀ e ∈ (f d).2.1, isInsertEvent e = true) :
    ∀ e ∈ (seqJ a f).2.1, isInsertEvent e = true := by
  unfold seqJ
  cases h : a.2.2 with
  | some k => exact ha
  | none =>
    intro e he
    have he' : e ∈ a.2.1 ++ (f a.1).2.1 := he
    rcases List.mem_append.mp he' with hm | hm
    · exact ha e hm
    · exact hf _ e hm

theorem runSectionsJ_filtered (s : String) (db : DB) (doc : JsonDoc)
    (h : FilteredTo s db) : FilteredTo s (runSectionsJ (some s) db doc).1 := by
  unfold runSectionsJ
  exact seqJ_filtered (seqJ_filtered (seqJ_filtered (segSectionJ_filtered _ _ h)
    (fun d hd => famSectionJ_filtered _ _ hd))
    (fun d hd => classSectionJ_filtered _ _ hd))
    (fun d hd => brickSectionJ_filtered _ _ hd)

theorem runSectionsJ_insert (filt : Option String) (db : DB) (doc : JsonDoc) :
    ∀ e ∈ (runSectionsJ filt db doc).2.1, isInsertEvent e = true := by
  unfold runSectionsJ
  exact seqJ_insert (seqJ_insert (seqJ_insert (segSectionJ_insert _ _)
    (fun d => famSectionJ_insert _ _ _)) (fun d => classSectionJ_insert _ _ _))
    (fun d => brickSectionJ_insert _ _ _)

theorem import_shape (doc : JsonDoc) (db : DB) (filt : Option String) :
    ((import_gpc_to_sqlite doc db filt).keyError = none ∧
      (import_gpc_to_sqlite doc db filt).committed = true ∧
      (import_gpc_to_sqlite doc db filt).closed = true) ∨
    ((import_gpc_to_sqlite doc db filt).keyError ≠ none ∧
      (import_gpc_to_sqlite doc db filt).committed = false ∧
      (import_gpc_to_sqlite doc db filt).closed = false ∧
      (import_gpc_to_sqlite doc db filt).db = db) := by
  unfold import_gpc_to_sqlite
  cases h : (runSectionsJ filt db doc).2.2 with
  | some k => exact Or.inr ⟨by simp, rfl, rfl, rfl⟩
  | none => exact Or.inl ⟨rfl, rfl, rfl⟩

theorem import_filtered_general {s : String} {db : DB} (h : FilteredTo s db)
    (doc : JsonDoc) : FilteredTo s (import_gpc_to_sqlite doc db (some s)).db := by
  unfold import_gpc_to_sqlite
  cases hx : (runSectionsJ (some s) db doc).2.2 with
  | some k => exact h
  | none => exact runSectionsJ_filtered s db doc h

theorem import_no_fk (doc : JsonDoc) (db : DB) (filt : Option String) :
    Event.enableForeignKeys ∉ (import_gpc_to_sqlite doc db filt).events := by
  unfold import_gpc_to_sqlite
  cases hx : (runSectionsJ filt db doc).2.2 with
  | some k =>
    intro hmem
    have hm : Event.enableForeignKeys ∈
        ([Event.openConn, Event.createTables] ++ (runSectionsJ filt db doc).2.1) := hmem
    rcases List.mem_append.mp hm with h | h
    · simp at h
    · have hi := runSectionsJ_insert filt db doc _ h
      simp [isInsertEvent] at hi
  | none =>
    intro hmem
    have hm : Event.enableForeignKeys ∈
        ([Event.openConn, Event.createTables] ++ (runSectionsJ filt db doc).2.1 ++
          [Event.commit, Event.closeConn]) := hmem
    rcases List.mem_append.mp hm with h | h
    · rcases List.mem_append.mp h with h2 | h2
      · simp at h2
      · have hi := runSectionsJ_insert filt db doc _ h2
        simp [isInsertEvent] at hi
    · simp at h

theorem runSectionsJ_trunc (segs : Option (List JSegment))
    (cls : Option (List JClass)) (brs : Option (List JBrick))
    (filt : Option String) (db : DB) (pre post : List JFamily) (bad : JFamily)
    (hbad : famErr filt bad ≠ none) :
    runSectionsJ filt db ⟨segs, some (pre ++ bad :: post), cls, brs⟩ =
      runSectionsJ filt db ⟨segs, some (pre ++ [bad]), none, none⟩ := by
  unfold runSectionsJ
  simp only []
  have hsec : (fun d => famSectionJ filt d (some (pre ++ bad :: post))) =
      (fun d => famSectionJ filt d (some (pre ++ [bad]))) := by
    funext d
    unfold famSectionJ
    exact famLoopJ_trunc filt d pre post bad hbad
  rw [hsec]
  have hA : ∃ k, (seqJ (segSectionJ db segs)
      (fun d => famSectionJ filt d (some (pre ++ [bad])))).2.2 = some k := by
    unfold seqJ
    cases hs : (segSectionJ db segs).2.2 with
    | some k => exact ⟨k, rfl⟩
    | none =>
      have hne := famLoopJ_end_err filt (segSectionJ db segs).1 pre bad hbad
      cases hf : (famSectionJ filt (segSectionJ db segs).1
          (some (pre ++ [bad]))).2.2 with
      | some k => exact ⟨k, by simpa using hf⟩
      | none => exact absurd (by simpa [famSectionJ] using hf) hne
  obtain ⟨k, hk⟩ := hA
  rw [seqJ_err (fun d => classSectionJ filt d cls) hk,
    seqJ_err (fun d => classSectionJ filt d none) hk,
    seqJ_err (fun d => brickSectionJ filt d brs) rfl,
    seqJ_err (fun d => brickSectionJ filt d none) rfl]

theorem import_trunc (segs : Option (List JSegment))
    (cls : Option (List JClass)) (brs : Option (List JBrick))
    (filt : Option String) (db : DB) (pre post : List JFamily) (bad : JFamily)
    (hbad : famErr filt bad ≠ none) :
    import_gpc_to_sqlite ⟨segs, some (pre ++ bad :: post), cls, brs⟩ db filt =
      import_gpc_to_sqlite ⟨segs, some (pre ++ [bad]), none, none⟩ db filt := by
  unfold import_gpc_to_sqlite
  rw [runSectionsJ_trunc segs cls brs filt db pre post bad hbad]

/-- C1: idempotence of the XML import.  For every source document and
every store, a second `process_gpc_xml` run with the same document
against the store left by the first run keeps the row sets of all six
tables identical, reports the same processed (and skipped) counts as the
first run, and reports zero inserted counts at every level. -/
theorem xml_import_idempotent (src : XmlSource) (db : DB) :
    (process_gpc_xml [] src (process_gpc_xml [] src db none).db none).db =
        (process_gpc_xml [] src db none).db ∧
      (process_gpc_xml [] src (process_gpc_xml [] src db none).db none).stats.ps =
        (process_gpc_xml [] src db none).stats.ps ∧
      (process_gpc_xml [] src (process_gpc_xml [] src db none).db none).stats.InsertedZero := by
  cases src with
  | malformed => exact ⟨rfl, rfl, inserted_zero_zero⟩
  | doc root segs =>
    unfold process_gpc_xml
    simp only []
    split
    · exact ⟨rfl, rfl, inserted_zero_zero⟩
    · obtain ⟨hb1, hsat⟩ := procSegments_nofault db segs
      obtain ⟨hnoop_db, hnoop_z⟩ := procSegments_noop (procSegments [] db segs).1 segs hsat
      exact ⟨hnoop_db, by rw [procSegments_ps, procSegments_ps], hnoop_z⟩

/-- C9: counter accuracy of the XML import.  In a run without storage
faults, the processed and skipped counters at each of the six levels
equal the syntactic counts of the document (skipped nodes included,
nodes under skipped ancestors and documents out of scope excluded), and
at each level inserted + ignored-duplicates + skipped = processed, so
the inserted count is processed minus duplicates minus skipped. -/
theorem counters_accurate (src : XmlSource) (db : DB) :
    (process_gpc_xml [] src db none).stats.ps = specCounts src ∧
      (process_gpc_xml [] src db none).stats.Balanced := by
  cases src with
  | malformed => exact ⟨rfl, balanced_zero_stats⟩
  | doc root segs =>
    unfold process_gpc_xml specCounts
    simp only []
    split
    · exact ⟨rfl, balanced_zero_stats⟩
    · rename_i h2
      first
        | rw [if_pos h2]
        | rw [if_pos (not_not.mp h2)]
      exact ⟨procSegments_ps [] db segs, (procSegments_nofault db segs).1⟩

/-- C6: per-insert storage errors are non-fatal in the XML import.  For
every fault set injected into the insert helpers, the run still reaches
its commit (same success outcome as the fault-free run), visits exactly
the same nodes (identical processed/skipped counters and identical
insert-attempt trace as the fault-free run), so siblings of a failed
node are still processed with the same parent codes. -/
theorem insert_errors_nonfatal (src : XmlSource) (db : DB) (fault : Fault) :
    (process_gpc_xml fault src db none).success =
        (process_gpc_xml [] src db none).success ∧
      (process_gpc_xml fault src db none).stats.ps =
        (process_gpc_xml [] src db none).stats.ps ∧
      (process_gpc_xml fault src db none).events =
        (process_gpc_xml [] src db none).events := by
  cases src with
  | malformed => exact ⟨rfl, rfl, rfl⟩
  | doc root segs =>
    unfold process_gpc_xml
    simp only []
    split
    · exact ⟨rfl, rfl, rfl⟩
    · refine ⟨rfl, ?_, ?_⟩
      · rw [procSegments_ps, procSegments_ps]
      · rw [procSegments_events, procSegments_events]

theorem RefInt_empty : RefInt emptyDB :=
  ⟨fun _ h => absurd h (List.not_mem_nil _), fun _ h => absurd h (List.not_mem_nil _),
    fun _ h => absurd h (List.not_mem_nil _), fun _ h => absurd h (List.not_mem_nil _),
    fun _ h => absurd h (List.not_mem_nil _)⟩

/-- C2 (counterexample): the claim "after any import run, every child
row's parent code exists in the parent table" is false for the JSON
importer, which never enables foreign-key enforcement: importing a
document with one family and no segments commits a family row whose
segment code references no segment row. -/
theorem json_refint_violation :
    (import_gpc_to_sqlite
        ⟨none, some [⟨some "51000000", some "Family", some "50000000"⟩], none, none⟩
        emptyDB none).committed = true ∧
      (⟨"51000000", "Family", "50000000"⟩ : Row) ∈
        (import_gpc_to_sqlite
          ⟨none, some [⟨some "51000000", some "Family", some "50000000"⟩], none, none⟩
          emptyDB none).db.families ∧
      segHasKey
        (import_gpc_to_sqlite
          ⟨none, some [⟨some "51000000", some "Family", some "50000000"⟩], none, none⟩
          emptyDB none).db "50000000" = false := by
  decide

/-- C2 (amended): the XML importer preserves referential integrity.  Its
connection has foreign-key enforcement on, so every run (with any fault
set, and whether it commits or aborts) maps a store satisfying
referential integrity to a store satisfying it; the JSON importer does
not enforce the declared foreign keys and can violate the invariant. -/
theorem xml_refint_preserved (fault : Fault) (src : XmlSource) (db : DB)
    (fatal : Option Nat) (h : RefInt db) :
    RefInt (process_gpc_xml fault src db fatal).db := by
  cases src with
  | malformed => exact h
  | doc root segs =>
    unfold process_gpc_xml
    simp only []
    split
    · exact h
    · cases fatal with
      | none => exact procSegments_refint fault db segs h
      | some n => exact h

/-- Witness for C2's amended theorem at a concrete run. -/
theorem xml_refint_preserved_witness :
    RefInt (process_gpc_xml []
      (.doc "schema"
        [⟨some "50000000", some "Food/Beverage",
          [⟨some "50010000", some "Family",
            [⟨some "50010100", some "Class",
              [⟨some "50010101", some "Brick",
                [⟨some "20000001", some "AttType",
                  [⟨some "30000001", some "AttValue"⟩]⟩]⟩]⟩]⟩]⟩])
      emptyDB none).db :=
  xml_refint_preserved [] _ emptyDB none RefInt_empty

/-- C7 (counterexample): the claim "on a parse failure the run aborts
before any store access: no connection is opened, no tables are
created" is false.  `process_gpc_xml` calls `setup_database` before
parsing, so even for an unparseable document the trace contains the
connection opening and the table creation. -/
theorem parse_failure_opens_connection :
    Event.openConn ∈ (process_gpc_xml [] .malformed emptyDB none).events ∧
      Event.createTables ∈ (process_gpc_xml [] .malformed emptyDB none).events := by
  decide

/-- C7 (amended): on a parse failure or a root-tag mismatch the run
aborts before any insert is attempted — the store content is unchanged
and the trace contains no insert attempt and no commit — but the
connection opening and table creation have already happened by then. -/
theorem abort_before_any_insert :
    (∀ fault db fatal,
      (process_gpc_xml fault .malformed db fatal).db = db ∧
      (∀ t c, Event.insertAttempt t c ∉ (process_gpc_xml fault .malformed db fatal).events) ∧
      Event.commit ∉ (process_gpc_xml fault .malformed db fatal).events) ∧
    (∀ fault db fatal root segs, root ≠ EXPECTED_ROOT_TAG →
      (process_gpc_xml fault (.doc root segs) db fatal).db = db ∧
      (∀ t c, Event.insertAttempt t c ∉ (process_gpc_xml fault (.doc root segs) db fatal).events) ∧
      Event.commit ∉ (process_gpc_xml fault (.doc root segs) db fatal).events) := by
  constructor
  · intro fault db fatal
    refine ⟨rfl, ?_, ?_⟩
    · intro t c hmem
      have hm : Event.insertAttempt t c ∈
          ([Event.openConn, Event.enableForeignKeys, Event.createTables] ++
            [Event.parseFailed, Event.closeConn]) := hmem
      simp at hm
    · intro hmem
      have hm : Event.commit ∈
          ([Event.openConn, Event.enableForeignKeys, Event.createTables] ++
            [Event.parseFailed, Event.closeConn]) := hmem
      simp at hm
  · intro fault db fatal root segs hne
    have hshape : process_gpc_xml fault (.doc root segs) db fatal =
        ⟨db, Stats.zero,
          [Event.openConn, Event.enableForeignKeys, Event.createTables] ++
            [Event.wrongRoot, Event.closeConn], false⟩ := by
      unfold process_gpc_xml
      simp only []
      rw [if_pos hne]
    rw [hshape]
    refine ⟨rfl, ?_, ?_⟩
    · intro t c hmem
      simp at hmem
    · intro hmem
      simp at hmem

/-- Witness for C7's amended theorem at a concrete wrong-root input. -/
theorem abort_before_any_insert_witness :
    (process_gpc_xml [] (.doc "Schema" []) emptyDB none).db = emptyDB ∧
      (∀ t c, Event.insertAttempt t c ∉
        (process_gpc_xml [] (.doc "Schema" []) emptyDB none).events) ∧
      Event.commit ∉ (process_gpc_xml [] (.doc "Schema" []) emptyDB none).events :=
  abort_before_any_insert.2 [] emptyDB none "Schema" [] (by decide)

/-- C8 (counterexample): the claim "foreign-key enforcement is enabled
on the connection before any insert, in every run and for every input
format" is false for the JSON importer: a JSON run performs insert
attempts while its trace contains no `PRAGMA foreign_keys = ON`
event at all. -/
theorem json_fk_never_enabled :
    Event.insertAttempt .seg "50000000" ∈
      (import_gpc_to_sqlite ⟨some [⟨some "50000000", some "Food/Beverage"⟩], none, none, none⟩
        emptyDB none).events ∧
      Event.enableForeignKeys ∉
        (import_gpc_to_sqlite ⟨some [⟨some "50000000", some "Food/Beverage"⟩], none, none, none⟩
          emptyDB none).events := by
  decide

/-- C8 (amended): the XML importer enables foreign-key enforcement
before any insert occurs — in every run, scanning the trace left to
right meets the pragma before the first insert attempt; the JSON
importer never enables it. -/
theorem fk_before_inserts :
    (∀ fault src db fatal, fkFirst (process_gpc_xml fault src db fatal).events = true) ∧
    (∀ doc jdb filt, Event.enableForeignKeys ∉ (import_gpc_to_sqlite doc jdb filt).events) := by
  constructor
  · intro fault src db fatal
    unfold process_gpc_xml
    cases src with
    | malformed => rfl
    | doc root segs =>
      simp only []
      split
      · rfl
      · cases fatal with
        | none => rfl
        | some n => rfl
  · intro doc jdb filt
    exact import_no_fk doc jdb filt

/-- C4: skip-on-missing in the XML import, at every one of the six
levels.  Deleting a node with a blank or absent code or description from
its sibling list changes nothing in the resulting store or trace — the
node is never persisted and none of its descendants are visited — except
that the node itself still counts as processed and one skipped warning
is recorded; the siblings before and after it are processed exactly as
without it. -/
theorem skip_on_missing :
    (∀ (fault : Fault) (db : DB) (pre post : List SegmentElem) (bad : SegmentElem),
      (blank bad.code || blank bad.text) = true →
      procSegments fault db (pre ++ bad :: post) =
        ((procSegments fault db (pre ++ post)).1,
          Stats.inSegs skipUnit + (procSegments fault db (pre ++ post)).2.1,
          (procSegments fault db (pre ++ post)).2.2)) ∧
    (∀ (fault : Fault) (p : String) (db : DB) (pre post : List FamilyElem)
        (bad : FamilyElem), (blank bad.code || blank bad.text) = true →
      procFamilies fault p db (pre ++ bad :: post) =
        ((procFamilies fault p db (pre ++ post)).1,
          Stats.inFams skipUnit + (procFamilies fault p db (pre ++ post)).2.1,
          (procFamilies fault p db (pre ++ post)).2.2)) ∧
    (∀ (fault : Fault) (p : String) (db : DB) (pre post : List ClassElem)
        (bad : ClassElem), (blank bad.code || blank bad.text) = true →
      procClasses fault p db (pre ++ bad :: post) =
        ((procClasses fault p db (pre ++ post)).1,
          Stats.inCls skipUnit + (procClasses fault p db (pre ++ post)).2.1,
          (procClasses fault p db (pre ++ post)).2.2)) ∧
    (∀ (fault : Fault) (p : String) (db : DB) (pre post : List BrickElem)
        (bad : BrickElem), (blank bad.code || blank bad.text) = true →
      procBricks fault p db (pre ++ bad :: post) =
        ((procBricks fault p db (pre ++ post)).1,
          Stats.inBrs skipUnit + (procBricks fault p db (pre ++ post)).2.1,
          (procBricks fault p db (pre ++ post)).2.2)) ∧
    (∀ (fault : Fault) (p : String) (db : DB) (pre post : List AttTypeElem)
        (bad : AttTypeElem), (blank bad.code || blank bad.text) = true →
      procAttTypes fault p db (pre ++ bad :: post) =
        ((procAttTypes fault p db (pre ++ post)).1,
          Stats.inAts skipUnit + (procAttTypes fault p db (pre ++ post)).2.1,
          (procAttTypes fault p db (pre ++ post)).2.2)) ∧
    (∀ (fault : Fault) (p : String) (db : DB) (pre post : List AttValueElem)
        (bad : AttValueElem), (blank bad.code || blank bad.text) = true →
      procAttValues fault p db (pre ++ bad :: post) =
        ((procAttValues fault p db (pre ++ post)).1,
          Stats.inAvs skipUnit + (procAttValues fault p db (pre ++ post)).2.1,
          (procAttValues fault p db (pre ++ post)).2.2)) :=
  ⟨procSegments_skip, procFamilies_skip, procClasses_skip, procBricks_skip,
    procAttTypes_skip, procAttValues_skip⟩

/-- Witness for C4 at concrete skipped nodes, one per level. -/
theorem skip_on_missing_witness :
    (procSegments [] emptyDB ([] ++ (⟨none, some "d", []⟩ : SegmentElem) :: []) =
      ((procSegments [] emptyDB ([] ++ [])).1,
        Stats.inSegs skipUnit + (procSegments [] emptyDB ([] ++ [])).2.1,
        (procSegments [] emptyDB ([] ++ [])).2.2)) ∧
    (procFamilies [] "50000000" emptyDB ([] ++ (⟨some "", some "d", []⟩ : FamilyElem) :: []) =
      ((procFamilies [] "50000000" emptyDB ([] ++ [])).1,
        Stats.inFams skipUnit + (procFamilies [] "50000000" emptyDB ([] ++ [])).2.1,
        (procFamilies [] "50000000" emptyDB ([] ++ [])).2.2)) ∧
    (procClasses [] "50010000" emptyDB ([] ++ (⟨some "c", none, []⟩ : ClassElem) :: []) =
      ((procClasses [] "50010000" emptyDB ([] ++ [])).1,
        Stats.inCls skipUnit + (procClasses [] "50010000" emptyDB ([] ++ [])).2.1,
        (procClasses [] "50010000" emptyDB ([] ++ [])).2.2)) ∧
    (procBricks [] "50010100" emptyDB ([] ++ (⟨none, none, []⟩ : BrickElem) :: []) =
      ((procBricks [] "50010100" emptyDB ([] ++ [])).1,
        Stats.inBrs skipUnit + (procBricks [] "50010100" emptyDB ([] ++ [])).2.1,
        (procBricks [] "50010100" emptyDB ([] ++ [])).2.2)) ∧
    (procAttTypes [] "50010101" emptyDB ([] ++ (⟨some "a", some "", []⟩ : AttTypeElem) :: []) =
      ((procAttTypes [] "50010101" emptyDB ([] ++ [])).1,
        Stats.inAts skipUnit + (procAttTypes [] "50010101" emptyDB ([] ++ [])).2.1,
        (procAttTypes [] "50010101" emptyDB ([] ++ [])).2.2)) ∧
    (procAttValues [] "20000001" emptyDB ([] ++ (⟨none, some "v"⟩ : AttValueElem) :: []) =
      ((procAttValues [] "20000001" emptyDB ([] ++ [])).1,
        Stats.inAvs skipUnit + (procAttValues [] "20000001" emptyDB ([] ++ [])).2.1,
        (procAttValues [] "20000001" emptyDB ([] ++ [])).2.2)) :=
  ⟨skip_on_missing.1 [] emptyDB [] [] ⟨none, some "d", []⟩ (by decide),
    skip_on_missing.2.1 [] "50000000" emptyDB [] [] ⟨some "", some "d", []⟩ (by decide),
    skip_on_missing.2.2.1 [] "50010000" emptyDB [] [] ⟨some "c", none, []⟩ (by decide),
    skip_on_missing.2.2.2.1 [] "50010100" emptyDB [] [] ⟨none, none, []⟩ (by decide),
    skip_on_missing.2.2.2.2.1 [] "50010101" emptyDB [] [] ⟨some "a", some "", []⟩ (by decide),
    skip_on_missing.2.2.2.2.2 [] "20000001" emptyDB [] [] ⟨none, some "v"⟩ (by decide)⟩

theorem count_commit_sandwich (l tail : List Event)
    (h : Event.commit ∉ l) :
    (([Event.openConn, Event.enableForeignKeys, Event.createTables] ++ l ++ tail).count
      Event.commit) = tail.count Event.commit := by
  have h1 : ([Event.openConn, Event.enableForeignKeys,
      Event.createTables].count Event.commit) = 0 := by decide
  rw [List.count_append, List.count_append, h1, List.count_eq_zero.mpr h]
  omega

/-- C5: run atomicity.  An XML run in which a fatal error strikes during
traversal rolls the transaction back: the store is exactly as before the
run, the trace shows the rollback, and no commit ever happens.  Any XML
run commits at most once (exactly once when it completes), and a JSON
run either reaches its single commit or leaves the store untouched. -/
theorem run_atomicity :
    (∀ (fault : Fault) (db : DB) segs n,
      (process_gpc_xml fault (.doc EXPECTED_ROOT_TAG segs) db (some n)).db = db ∧
      Event.rollback ∈ (process_gpc_xml fault (.doc EXPECTED_ROOT_TAG segs) db (some n)).events ∧
      ((process_gpc_xml fault (.doc EXPECTED_ROOT_TAG segs) db (some n)).events.count
        Event.commit) = 0) ∧
    (∀ (fault : Fault) (src : XmlSource) (db : DB) fatal,
      ((process_gpc_xml fault src db fatal).events.count Event.commit) ≤ 1) ∧
    (∀ (doc : JsonDoc) (jdb : DB) filt,
      (import_gpc_to_sqlite doc jdb filt).committed = true ∨
        (import_gpc_to_sqlite doc jdb filt).db = jdb) := by
  have hshape : ∀ (fault : Fault) (db : DB) segs n,
      process_gpc_xml fault (.doc EXPECTED_ROOT_TAG segs) db (some n) =
        ⟨db, (procSegments fault db (segs.take n)).2.1,
          [Event.openConn, Event.enableForeignKeys, Event.createTables] ++
            (procSegments fault db (segs.take n)).2.2 ++
            [Event.rollback, Event.closeConn], false⟩ := by
    intro fault db segs n
    unfold process_gpc_xml
    simp only []
    rw [if_neg (fun hne => hne rfl)]
  have hnc : ∀ (fault : Fault) (db : DB) (l : List SegmentElem),
      Event.commit ∉ (procSegments fault db l).2.2 := by
    intro fault db l
    rw [procSegments_events]
    exact not_mem_of_insert_only (evSGs_insert _) rfl
  refine ⟨?_, ?_, ?_⟩
  · intro fault db segs n
    rw [hshape]
    refine ⟨rfl, List.mem_append_right _ (List.mem_cons_self _ _), ?_⟩
    rw [count_commit_sandwich _ _ (hnc fault db (segs.take n))]
    decide
  · intro fault src db fatal
    cases src with
    | malformed =>
      have hm : (process_gpc_xml fault .malformed db fatal).events =
          [Event.openConn, Event.enableForeignKeys, Event.createTables] ++
            [Event.parseFailed, Event.closeConn] := rfl
      rw [hm]
      decide
    | doc root segs =>
      by_cases hr : root ≠ EXPECTED_ROOT_TAG
      · have hm : (process_gpc_xml fault (.doc root segs) db fatal).events =
            [Event.openConn, Event.enableForeignKeys, Event.createTables] ++
              [Event.wrongRoot, Event.closeConn] := by
          unfold process_gpc_xml
          simp only []
          rw [if_pos hr]
        rw [hm]
        decide
      · have hroot : root = EXPECTED_ROOT_TAG := not_not.mp hr
        subst hroot
        cases fatal with
        | none =>
          have hm : (process_gpc_xml fault (.doc EXPECTED_ROOT_TAG segs) db none).events =
              [Event.openConn, Event.enableForeignKeys, Event.createTables] ++
                (procSegments fault db segs).2.2 ++ [Event.commit, Event.closeConn] := by
            unfold process_gpc_xml
            simp only []
            rw [if_neg (fun hne => hne rfl)]
          rw [hm, count_commit_sandwich _ _ (hnc fault db segs)]
          decide
        | some n =>
          rw [hshape, count_commit_sandwich _ _ (hnc fault db (segs.take n))]
          decide
  · intro doc jdb filt
    rcases import_shape doc jdb filt with ⟨_, hc, _⟩ | ⟨_, _, _, hdb⟩
    · exact Or.inl hc
    · exact Or.inr hdb

/-- C3 (counterexample): the claim "with a segment filter S, no row
belonging to any other segment — including the other segments' own
Segment rows — appears in the store" is false: the JSON importer
inserts every segment record unconditionally, before the filter is ever
consulted, so filtering on the first segment still stores the second
segment's row. -/
theorem filter_keeps_other_segments :
    (⟨"60000000", "Other"⟩ : SegRow) ∈
      (import_gpc_to_sqlite
        ⟨some [⟨some "50000000", some "Food/Beverage"⟩, ⟨some "60000000", some "Other"⟩],
          none, none, none⟩ emptyDB (some "50000000")).db.segments := by
  decide

/-- C3 (amended): with segment filter S and an empty initial store, the
family, class and brick tables only ever hold descendants of S: every
family row hangs off S, every class row off such a family, every brick
row off such a class.  The segments table itself is not filtered. -/
theorem segment_filter_descendants (doc : JsonDoc) (s : String) :
    FilteredTo s (import_gpc_to_sqlite doc emptyDB (some s)).db :=
  import_filtered_general (FilteredTo_empty s) doc

/-- C10 (counterexample): the claim "any record lacking a required field
aborts the remainder of the JSON import" is false: a family record with
no familyCode whose segmentCode does not match the filter is skipped by
the guard before its missing key is ever read, so the run continues,
processes the next record and commits. -/
theorem json_missing_key_not_fatal :
    (import_gpc_to_sqlite
        ⟨some [⟨some "50000000", some "Food/Beverage"⟩],
          some [⟨none, none, some "60000000"⟩,
            ⟨some "51000000", some "Family", some "50000000"⟩], none, none⟩
        emptyDB (some "50000000")).keyError = none ∧
      (import_gpc_to_sqlite
        ⟨some [⟨some "50000000", some "Food/Beverage"⟩],
          some [⟨none, none, some "60000000"⟩,
            ⟨some "51000000", some "Family", some "50000000"⟩], none, none⟩
        emptyDB (some "50000000")).committed = true ∧
      (⟨"51000000", "Family", "50000000"⟩ : Row) ∈
        (import_gpc_to_sqlite
          ⟨some [⟨some "50000000", some "Food/Beverage"⟩],
            some [⟨none, none, some "60000000"⟩,
              ⟨some "51000000", some "Family", some "50000000"⟩], none, none⟩
          emptyDB (some "50000000")).db.families := by
  decide

/-- C10 (amended): when a KeyError is actually raised — the record's
missing field is one the code reads, which for a family record is
captured by `famErr` — it is caught at the top level: the run reports
the error, the commit is never reached, the connection is not closed,
the store keeps its initial content, and no record after the failing one
(at any level) is processed: the run is identical to the run on the
document truncated at the failing record with the later sections
removed. -/
theorem json_keyerror_aborts :
    (∀ (doc : JsonDoc) (jdb : DB) filt,
      (import_gpc_to_sqlite doc jdb filt).keyError ≠ none →
      (import_gpc_to_sqlite doc jdb filt).committed = false ∧
        (import_gpc_to_sqlite doc jdb filt).closed = false ∧
        (import_gpc_to_sqlite doc jdb filt).db = jdb) ∧
    (∀ segs cls brs filt (jdb : DB) pre post bad, famErr filt bad ≠ none →
      import_gpc_to_sqlite ⟨segs, some (pre ++ bad :: post), cls, brs⟩ jdb filt =
        import_gpc_to_sqlite ⟨segs, some (pre ++ [bad]), none, none⟩ jdb filt) := by
  constructor
  · intro doc jdb filt hk
    rcases import_shape doc jdb filt with ⟨h0, _, _⟩ | ⟨_, h1, h2, h3⟩
    · exact absurd h0 hk
    · exact ⟨h1, h2, h3⟩
  · intro segs cls brs filt jdb pre post bad hbad
    exact import_trunc segs cls brs filt jdb pre post bad hbad

/-- Witness for C10's amended theorem at concrete malformed records. -/
theorem json_keyerror_aborts_witness :
    ((import_gpc_to_sqlite ⟨some [⟨none, none⟩], none, none, none⟩ emptyDB none).committed = false ∧
      (import_gpc_to_sqlite ⟨some [⟨none, none⟩], none, none, none⟩ emptyDB none).closed = false ∧
      (import_gpc_to_sqlite ⟨some [⟨none, none⟩], none, none, none⟩ emptyDB none).db = emptyDB) ∧
    import_gpc_to_sqlite
        ⟨none, some ([] ++ (⟨none, none, none⟩ : JFamily) ::
          [⟨some "51000000", some "Family", some "50000000"⟩]), none, none⟩ emptyDB none =
      import_gpc_to_sqlite
        ⟨none, some ([] ++ [(⟨none, none, none⟩ : JFamily)]), none, none⟩ emptyDB none :=
  ⟨json_keyerror_aborts.1 ⟨some [⟨none, none⟩], none, none, none⟩ emptyDB none (by decide),
    json_keyerror_aborts.2 none none none none emptyDB []
      [⟨some "51000000", some "Family", some "50000000"⟩] ⟨none, none, none⟩ (by decide)⟩

end GPC
